import Mathlib

/-!
Verification of the neovimpv control core: a shallow embedding of the
mpv IPC protocol engine (`rplugin/python3/neovimpv/protocol.py`,
class `MpvProtocol`) and of the playlist reconciliation layer
(`rplugin/python3/neovimpv/mpv.py`, classes `MpvPlaylist`, `MpvWrapper`,
`MpvManager`), together with theorems settling the specified properties.

Python dictionaries are embedded as association lists keyed by `Int` or
`String` (assignment = `upsert`, `del` = `aerase`, `.get` = `alookup`);
asyncio futures are embedded by their observable state (`FutState`) or,
for awaited property requests, by the fulfilment effects the engine
emits (`Effect.futResult`).  Fallible paths (`AttributeError`,
`InvalidStateError`, `KeyError`) are embedded with `Except Exc`.
-/

/-- Exceptions that the embedded code can raise. -/
inductive Exc where
  | invalidStateError
  | attributeError
  | keyError
deriving Repr, DecidableEq

/-- JSON-ish values carried over the wire and stored in the property cache. -/
inductive Val where
  | vNum (n : Int)
  | vStr (s : String)
  | vBool (b : Bool)
  | vNull
deriving Repr, DecidableEq

/-- Observable state of an asyncio future. -/
inductive FutState where
  | pending
  | done
  | cancelled
deriving Repr, DecidableEq

/-- An entry of `MpvProtocol._waiting_properties`: the Python tuples
`(self.GET, property_name, future)` and `(self.SET, property_name, value)`. -/
inductive Pending where
  | get (property_name : String)
  | set (property_name : String) (value : Val)
deriving Repr, DecidableEq

/-- The dict built by `MpvProtocol._try_playlist` and stored in `_playlist_new`. -/
structure PlaylistNew where
  playlist_entry_id : Option Int
  playlist_insert_id : Option Int
  playlist_insert_num_entries : Option Int
deriving Repr, DecidableEq

/-- The fields of one decoded inbound JSON line that `MpvProtocol` reads. -/
structure Datum where
  request_id : Option Int := none
  error : Option String := none
  event : Option String := none
  data : Option Val := none
  id : Option Int := none
  reason : Option String := none
  playlist_entry_id : Option Int := none
  playlist_insert_id : Option Int := none
  playlist_insert_num_entries : Option Int := none
  property_name : Option String := none
deriving Repr, DecidableEq

/-- Externally observable actions of the protocol engine. -/
inductive Effect where
  | write (args : List Val) (request_id : Int)
  | dispatch (event_name : String) (d : Datum)
  | dispatchGotPlaylist (playlist : Option Val) (new : Option PlaylistNew)
  | eventFutSet (event_name : String) (k : Nat)
  | futResult (request_id : Int) (value : Option Val)
  | logIgnored
  | logUnknown
deriving Repr, DecidableEq

section AList

variable {α : Type} {β : Type} [DecidableEq α]

/-- `d.get(k)` on a Python dict. -/
def alookup : List (α × β) → α → Option β
  | [], _ => none
  | (k', v) :: rest, k => if k = k' then some v else alookup rest k

/-- `d[k] = v` on a Python dict: replace in place, else append. -/
def upsert : List (α × β) → α → β → List (α × β)
  | [], k, v => [(k, v)]
  | (k', v') :: rest, k, v =>
      if k = k' then (k, v) :: rest else (k', v') :: upsert rest k v

/-- `del d[k]` on a Python dict with unique keys. -/
def aerase : List (α × β) → α → List (α × β)
  | [], _ => []
  | (k', v') :: rest, k => if k = k' then rest else (k', v') :: aerase rest k

/-- `l.remove(x)` on a Python list (first occurrence; caller checks presence). -/
def removeFirst : List Int → Int → List Int
  | [], _ => []
  | y :: rest, x => if x = y then rest else y :: removeFirst rest x

/-- Keys of an association list. -/
def akeys (l : List (α × β)) : List α := l.map Prod.fst

theorem alookup_upsert_self (l : List (α × β)) (k : α) (v : β) :
    alookup (upsert l k v) k = some v := by
  induction l with
  | nil => simp [upsert, alookup]
  | cons p rest ih =>
      obtain ⟨k', v'⟩ := p
      by_cases h : k = k' <;> simp [upsert, alookup, h, ih]

theorem alookup_upsert_ne (l : List (α × β)) (k k' : α) (v : β) (h : k' ≠ k) :
    alookup (upsert l k v) k' = alookup l k' := by
  induction l with
  | nil => simp [upsert, alookup, h]
  | cons p rest ih =>
      obtain ⟨k0, v0⟩ := p
      by_cases hk : k = k0
      · subst hk
        simp [upsert, alookup, h]
      · by_cases hk' : k' = k0 <;> simp [upsert, alookup, hk, hk', ih]

theorem alookup_aerase_ne (l : List (α × β)) (k k' : α) (h : k' ≠ k) :
    alookup (aerase l k) k' = alookup l k' := by
  induction l with
  | nil => simp [aerase]
  | cons p rest ih =>
      obtain ⟨k0, v0⟩ := p
      by_cases hk : k = k0
      · subst hk
        simp [aerase, alookup, h]
      · by_cases hk' : k' = k0 <;> simp [aerase, alookup, hk, hk', ih]

theorem alookup_eq_none_iff (l : List (α × β)) (k : α) :
    alookup l k = none ↔ k ∉ akeys l := by
  induction l with
  | nil => simp [alookup, akeys]
  | cons p rest ih =>
      obtain ⟨k0, v0⟩ := p
      by_cases hk : k = k0
      · simp [alookup, akeys, hk]
      · simp [alookup, akeys, hk, ih]

theorem mem_of_alookup_some {l : List (α × β)} {k : α} {v : β}
    (h : alookup l k = some v) : (k, v) ∈ l := by
  induction l with
  | nil => simp [alookup] at h
  | cons p rest ih =>
      obtain ⟨k0, v0⟩ := p
      by_cases hk : k = k0
      · subst hk
        simp [alookup] at h
        simp [h]
      · simp [alookup, hk] at h
        exact List.mem_cons_of_mem _ (ih h)

theorem akeys_mem_of_alookup_some {l : List (α × β)} {k : α} {v : β}
    (h : alookup l k = some v) : k ∈ akeys l := by
  have := mem_of_alookup_some h
  exact List.mem_map_of_mem Prod.fst this

theorem upsert_of_not_mem {l : List (α × β)} {k : α} (v : β)
    (h : k ∉ akeys l) : upsert l k v = l ++ [(k, v)] := by
  induction l with
  | nil => simp [upsert]
  | cons p rest ih =>
      obtain ⟨k0, v0⟩ := p
      simp [akeys] at h
      simp [upsert, h.1, ih (by simpa [akeys] using h.2)]

theorem akeys_upsert_not_mem {l : List (α × β)} {k : α} (v : β)
    (h : k ∉ akeys l) : akeys (upsert l k v) = akeys l ++ [k] := by
  rw [upsert_of_not_mem v h]
  simp [akeys]

theorem akeys_upsert_mem {l : List (α × β)} {k : α} (v : β)
    (h : k ∈ akeys l) : akeys (upsert l k v) = akeys l := by
  induction l with
  | nil => simp [akeys] at h
  | cons p rest ih =>
      obtain ⟨k0, v0⟩ := p
      by_cases hk : k = k0
      · subst hk
        simp [upsert, akeys]
      · simp only [akeys, List.map_cons] at h
        have h' : k ∈ akeys rest := by
          rcases List.mem_cons.mp h with h1 | h1
          · exact absurd h1 hk
          · exact h1
        simp [upsert, akeys, hk]
        have := ih h'
        simpa [akeys] using this

theorem nodup_akeys_upsert {l : List (α × β)} {k : α} (v : β)
    (h : (akeys l).Nodup) : (akeys (upsert l k v)).Nodup := by
  by_cases hk : k ∈ akeys l
  · rwa [akeys_upsert_mem v hk]
  · rw [akeys_upsert_not_mem v hk]
    simp [List.nodup_append, h, hk]

theorem mem_upsert {l : List (α × β)} {k : α} {v : β} {p : α × β}
    (h : p ∈ upsert l k v) : p = (k, v) ∨ p ∈ l := by
  induction l with
  | nil => simp [upsert] at h; simp [h]
  | cons q rest ih =>
      obtain ⟨k0, v0⟩ := q
      by_cases hk : k = k0
      · subst hk
        simp [upsert] at h
        rcases h with h | h
        · left; simp [h]
        · right; simp [h]
      · simp [upsert, hk] at h
        rcases h with h | h
        · right; simp [h]
        · rcases ih h with h' | h'
          · left; exact h'
          · right; exact List.mem_cons_of_mem _ h'

theorem aerase_sublist (l : List (α × β)) (k : α) : (aerase l k).Sublist l := by
  induction l with
  | nil => simp [aerase]
  | cons p rest ih =>
      obtain ⟨k0, v0⟩ := p
      by_cases hk : k = k0
      · rw [aerase, if_pos hk]
        exact List.sublist_cons_self _ _
      · rw [aerase, if_neg hk]
        exact ih.cons₂ _

theorem mem_of_mem_aerase {l : List (α × β)} {k : α} {p : α × β}
    (h : p ∈ aerase l k) : p ∈ l := (aerase_sublist l k).mem h

theorem alookup_aerase_self {l : List (α × β)} {k : α}
    (h : (akeys l).Nodup) : alookup (aerase l k) k = none := by
  induction l with
  | nil => simp [aerase, alookup]
  | cons p rest ih =>
      obtain ⟨k0, v0⟩ := p
      simp only [akeys, List.map_cons, List.nodup_cons] at h
      by_cases hk : k = k0
      · subst hk
        rw [aerase, if_pos rfl]
        exact (alookup_eq_none_iff rest k).mpr h.1
      · rw [aerase, if_neg hk, alookup, if_neg hk]
        exact ih h.2

theorem nodup_akeys_aerase {l : List (α × β)} (k : α)
    (h : (akeys l).Nodup) : (akeys (aerase l k)).Nodup := by
  have hs : (akeys (aerase l k)).Sublist (akeys l) :=
    List.Sublist.map Prod.fst (aerase_sublist l k)
  exact hs.nodup h

end AList

/-!
## The protocol engine state (`MpvProtocol.__init__`)

`transport_closing` models `self.transport.is_closing()`; event waiters
(`_waiting_events`) store each waiter future's observable state in
registration order.
-/

structure ProtState where
  transport_closing : Bool
  data : List (String × Option Val)
  properties : List (String × Int)
  reverse_properties : List (Int × String)
  last_property : Int
  waiting_properties : List (Int × Pending)
  ignore_errors : List Int
  waiting_events : List (String × List FutState)
  playlist_request : Int
  playlist_new : Option PlaylistNew
  last_playlist_entry_id : Int
deriving Repr, DecidableEq

/-- `MpvProtocol.__init__` (the mutable fields; the three default event
handlers are embedded in `builtin_step`). -/
def initState : ProtState :=
  { transport_closing := false
    data := []
    properties := []
    reverse_properties := []
    last_property := 20
    waiting_properties := []
    ignore_errors := []
    waiting_events := []
    playlist_request := -1
    playlist_new := none
    last_playlist_entry_id := -1 }

/-- The `{}` payload passed to handlers for synthetic events. -/
def emptyDatum : Datum := {}

/-- `datum.get("error") not in ("success", None)`. -/
def isErrorVal : Option String → Bool
  | none => false
  | some e => decide (e ≠ "success")

/-- `MpvProtocol._property_id`. -/
def property_id (s : ProtState) (property_name : String) : Int × ProtState :=
  let prop_id := (alookup s.properties property_name).getD s.last_property
  if prop_id = s.last_property then
    (prop_id,
      { s with
          properties := upsert s.properties property_name prop_id
          reverse_properties := upsert s.reverse_properties prop_id property_name
          last_property := s.last_property + 1 })
  else
    (prop_id, s)

/-- `MpvProtocol.send_command`. -/
def send_command (s : ProtState) (args : List Val) (request_id : Int)
    (ignore_error : Bool) : ProtState × List Effect :=
  if s.transport_closing then (s, [])
  else
    let s1 := if ignore_error then
        { s with ignore_errors := s.ignore_errors ++ [request_id] }
      else s
    (s1, [Effect.write args request_id])

/-- `MpvProtocol.get_property`. -/
def get_property (s : ProtState) (property_name : String)
    (request_id : Option Int) (ignore_error : Bool) : ProtState × List Effect :=
  match request_id with
  | some rid =>
      send_command s [Val.vStr "get_property", Val.vStr property_name] rid ignore_error
  | none =>
      let pid := property_id s property_name
      send_command pid.2 [Val.vStr "get_property", Val.vStr property_name] pid.1 ignore_error

/-- The synchronous part of `MpvProtocol.wait_property` (everything before
`await future`): records the PendingRequest under the fresh correlation id
`s.last_property`, sends the query, increments the counter. -/
def wait_property_start (s : ProtState) (property_name : String)
    (ignore_error : Bool) : ProtState × List Effect :=
  let rid := s.last_property
  let s1 := { s with
      waiting_properties := upsert s.waiting_properties rid (Pending.get property_name) }
  let gp := get_property s1 property_name (some rid) ignore_error
  ({ gp.1 with last_property := gp.1.last_property + 1 }, gp.2)

/-- The synchronous part of `MpvProtocol.next_event` (everything before
`await future`): registers one pending waiter future for the event. -/
def next_event_start (s : ProtState) (event_name : String) : ProtState :=
  let cur := (alookup s.waiting_events event_name).getD []
  { s with waiting_events := upsert s.waiting_events event_name (cur ++ [FutState.pending]) }

/-- `MpvProtocol.set_property`. -/
def set_property (s : ProtState) (property_name : String) (value : Val)
    (update : Bool) (ignore_error : Bool) : ProtState × List Effect :=
  if update = false then
    send_command s [Val.vStr "set_property", Val.vStr property_name, value] 0 ignore_error
  else
    let rid := s.last_property
    let s1 := { s with
        waiting_properties := upsert s.waiting_properties rid (Pending.set property_name value) }
    let sc := send_command s1 [Val.vStr "set_property", Val.vStr property_name, value]
        rid ignore_error
    ({ sc.1 with last_property := sc.1.last_property + 1 }, sc.2)

/-- `MpvProtocol.observe_property`. -/
def observe_property (s : ProtState) (property_name : String)
    (ignore_error : Bool) : ProtState × List Effect :=
  let pid := property_id s property_name
  send_command pid.2 [Val.vStr "observe_property", Val.vNum pid.1, Val.vStr property_name]
    0 ignore_error

/-- `future.set_result(True)` over a waiter list: raises `InvalidStateError`
on the first waiter that is not pending. -/
def checkAllPending : List FutState → Except Exc Unit
  | [] => Except.ok ()
  | FutState.pending :: rest => checkAllPending rest
  | _ :: _ => Except.error Exc.invalidStateError

/-- The waiter-fulfilment half of `MpvProtocol._try_handle_event`:
`for future in self._waiting_events.get(event_name, []): future.set_result(True)`
followed by `self._waiting_events[event_name] = []`.  Fulfilment effects are
emitted in registration order. -/
def fireWaiters (s : ProtState) (event_name : String) :
    Except Exc (ProtState × List Effect) :=
  let waiters := (alookup s.waiting_events event_name).getD []
  match checkAllPending waiters with
  | Except.error e => Except.error e
  | Except.ok _ =>
      Except.ok
        ({ s with waiting_events := upsert s.waiting_events event_name [] },
          (List.range waiters.length).map (fun k => Effect.eventFutSet event_name k))

/-- `MpvProtocol._property_change` (default handler for `property-change`). -/
def property_change (s : ProtState) (d : Datum) : ProtState :=
  match d.id.bind (fun pid => alookup s.reverse_properties pid), d.data with
  | some property_name, some v =>
      { s with data := upsert s.data property_name (some v) }
  | _, _ => s

/-- `MpvProtocol._try_playlist` (default handler for `end-file`). -/
def try_playlist (s : ProtState) (d : Datum) : Except Exc (ProtState × List Effect) :=
  if d.reason = some "redirect" then
    let s1 := { s with
        playlist_request := s.last_property
        playlist_new := some
          { playlist_entry_id := d.playlist_entry_id
            playlist_insert_id := d.playlist_insert_id
            playlist_insert_num_entries := d.playlist_insert_num_entries } }
    let gp := get_property s1 "playlist" (some s1.playlist_request) false
    let s2 := { gp.1 with last_property := gp.1.last_property + 1 }
    match fireWaiters s2 "pre-got-playlist" with
    | Except.error e => Except.error e
    | Except.ok (s3, e3) =>
        Except.ok (s3, gp.2 ++ (Effect.dispatch "pre-got-playlist" emptyDatum :: e3))
  else
    Except.ok (s, [])

/-- The state mutations performed by the default event handlers registered in
`MpvProtocol.__init__` (they run before any externally added handler). -/
def builtin_step (s : ProtState) (event_name : String) (d : Datum) :
    Except Exc (ProtState × List Effect) :=
  if event_name = "property-change" then
    Except.ok (property_change s d, [])
  else if event_name = "start-file" then
    Except.ok ({ s with last_playlist_entry_id := d.playlist_entry_id.getD (-1) }, [])
  else if event_name = "end-file" then
    try_playlist s d
  else
    Except.ok (s, [])

/-- `MpvProtocol._try_handle_event`: run handlers in registration order
(the built-in ones mutate protocol state; external ones are the `dispatch`
effect), then fulfil the event's waiters in registration order. -/
def try_handle_event (s : ProtState) (event_name : String) (d : Datum) :
    Except Exc (ProtState × List Effect) :=
  match builtin_step s event_name d with
  | Except.error e => Except.error e
  | Except.ok (s1, e1) =>
      match fireWaiters s1 event_name with
      | Except.error e => Except.error e
      | Except.ok (s2, e2) =>
          Except.ok (s2, Effect.dispatch event_name d :: (e1 ++ e2))

/-- The `try: self._ignore_errors.remove(request_id) ... except ValueError`
prologue of `MpvProtocol.data_received`. -/
def consume_tag (s : ProtState) : Option Int → Bool × ProtState
  | none => (false, s)
  | some rid =>
      if rid ∈ s.ignore_errors then
        (true, { s with ignore_errors := removeFirst s.ignore_errors rid })
      else
        (false, s)

/-- The error-event annotation in `MpvProtocol.data_received`:
reverse-look up the property name for convenience. -/
def annotate_error (s : ProtState) (d : Datum) : Datum :=
  match d.request_id.bind (fun rid => alookup s.reverse_properties rid) with
  | some property_name => { d with property_name := some property_name }
  | none => d

/-- `MpvProtocol.data_received`, restricted to a single decoded line. -/
def data_received_one (s : ProtState) (d : Datum) :
    Except Exc (ProtState × List Effect) :=
  let ct := consume_tag s d.request_id
  let consumed := ct.1
  let s0 := ct.2
  if isErrorVal d.error then
    if consumed then Except.ok (s0, [Effect.logIgnored])
    else try_handle_event s0 "error" (annotate_error s0 d)
  else
    match d.event with
    | some e => try_handle_event s0 e d
    | none =>
        match d.request_id with
        | none => Except.ok (s0, [Effect.logUnknown])
        | some rid =>
            match alookup s0.reverse_properties rid with
            | some property_name =>
                Except.ok ({ s0 with data := upsert s0.data property_name d.data }, [])
            | none =>
                if rid = s0.playlist_request then
                  match fireWaiters s0 "got-playlist" with
                  | Except.error e => Except.error e
                  | Except.ok (s1, e1) =>
                      Except.ok
                        ({ s1 with playlist_request := -1, playlist_new := none },
                          Effect.dispatchGotPlaylist d.data s0.playlist_new :: e1)
                else
                  match alookup s0.waiting_properties rid with
                  | some (Pending.get property_name) =>
                      Except.ok
                        ({ s0 with
                            waiting_properties := aerase s0.waiting_properties rid
                            data := upsert s0.data property_name d.data },
                          [Effect.futResult rid d.data])
                  | some (Pending.set property_name value) =>
                      Except.ok
                        ({ s0 with
                            waiting_properties := aerase s0.waiting_properties rid
                            data := upsert s0.data property_name (some value) },
                          [])
                  | none => Except.ok (s0, [Effect.logUnknown])

/-- `for _, __, future in self._waiting_properties.values(): future.cancel()`:
for a `SET` entry the stored third tuple component is the raw value, which
has no `cancel` attribute. -/
def check_cancelable : List Pending → Except Exc Unit
  | [] => Except.ok ()
  | Pending.get _ :: rest => check_cancelable rest
  | Pending.set _ _ :: _ => Except.error Exc.attributeError

/-- `future.cancel()` on one waiter. -/
def cancelFut : FutState → FutState
  | FutState.pending => FutState.cancelled
  | st => st

/-- `MpvProtocol.connection_lost`. -/
def connection_lost (s : ProtState) : Except Exc (ProtState × List Effect) :=
  match check_cancelable (s.waiting_properties.map Prod.snd) with
  | Except.error e => Except.error e
  | Except.ok _ =>
      let s1 := { s with
          waiting_events := s.waiting_events.map (fun q => (q.1, q.2.map cancelFut)) }
      try_handle_event s1 "close" emptyDatum

/-!
## Operation language and reachability

One constructor per public entry point of the live session (connection loss
is terminal and is analysed separately through `connection_lost`).
-/

inductive Op where
  | sendCmd (args : List Val) (request_id : Int) (ignore_error : Bool)
  | getProp (property_name : String) (request_id : Option Int) (ignore_error : Bool)
  | waitProp (property_name : String) (ignore_error : Bool)
  | nextEv (event_name : String)
  | setProp (property_name : String) (value : Val) (update : Bool) (ignore_error : Bool)
  | observeProp (property_name : String) (ignore_error : Bool)
  | recv (d : Datum)
deriving Repr, DecidableEq

def stepOp (s : ProtState) : Op → Except Exc ProtState
  | Op.sendCmd a r i => Except.ok (send_command s a r i).1
  | Op.getProp n r i => Except.ok (get_property s n r i).1
  | Op.waitProp n i => Except.ok (wait_property_start s n i).1
  | Op.nextEv e => Except.ok (next_event_start s e)
  | Op.setProp n v u i => Except.ok (set_property s n v u i).1
  | Op.observeProp n i => Except.ok (observe_property s n i).1
  | Op.recv d =>
      match data_received_one s d with
      | Except.error e => Except.error e
      | Except.ok (s', _) => Except.ok s'

def runOps : ProtState → List Op → Except Exc ProtState
  | s, [] => Except.ok s
  | s, op :: rest =>
      match stepOp s op with
      | Except.error e => Except.error e
      | Except.ok s' => runOps s' rest

/-- Protocol states reachable from a fresh `MpvProtocol` by the live-session
operations. -/
def Reachable (s : ProtState) : Prop := ∃ ops, runOps initState ops = Except.ok s

/-!
## Session invariant

`WFS` collects the correlation-id discipline of a live `MpvProtocol`:
correlation ids recorded in `_waiting_properties`, `_properties` /
`_reverse_properties` and `_playlist_request` are pairwise fresh draws of
the `_last_property` counter, and all registered event-waiter futures are
still pending.
-/

structure WFS (s : ProtState) : Prop where
  h20 : 20 ≤ s.last_property
  wkeys : (akeys s.waiting_properties).Nodup
  wlt : ∀ p ∈ s.waiting_properties, 20 ≤ p.1 ∧ p.1 < s.last_property
  plt : ∀ p ∈ s.properties, p.2 < s.last_property
  rlt : ∀ q ∈ s.reverse_properties, q.1 < s.last_property
  pr : ∀ p ∈ s.properties, alookup s.reverse_properties p.2 = some p.1
  wr : ∀ p ∈ s.waiting_properties, alookup s.reverse_properties p.1 = none
  plr : s.playlist_request = -1 ∨
    (s.playlist_request < s.last_property ∧
      alookup s.waiting_properties s.playlist_request = none ∧
      alookup s.reverse_properties s.playlist_request = none)
  epend : ∀ q ∈ s.waiting_events, ∀ st ∈ q.2, st = FutState.pending

theorem wfs_init : WFS initState := by
  constructor <;> simp [initState, akeys]

/-- The WF-relevant fields of a protocol state. -/
def wfFields (s : ProtState) :
    Int × List (Int × Pending) × List (String × Int) × List (Int × String) ×
      Int × List (String × List FutState) :=
  (s.last_property, s.waiting_properties, s.properties, s.reverse_properties,
    s.playlist_request, s.waiting_events)

theorem wfs_congr {s s' : ProtState} (h : wfFields s' = wfFields s)
    (hs : WFS s) : WFS s' := by
  obtain ⟨h1, h2, h3, h4, h5, h6⟩ := by
    simpa [wfFields, Prod.mk.injEq] using h
  constructor <;> simp only [h1, h2, h3, h4, h5, h6] <;> first
    | exact hs.h20 | exact hs.wkeys | exact hs.wlt | exact hs.plt
    | exact hs.rlt | exact hs.pr | exact hs.wr | exact hs.plr | exact hs.epend

theorem lookup_none_of_lt {β : Type} {l : List (Int × β)} {b : Int}
    (h : ∀ p ∈ l, p.1 < b) : alookup l b = none := by
  rw [alookup_eq_none_iff]
  intro hmem
  obtain ⟨p, hp, hfst⟩ := List.mem_map.mp hmem
  exact absurd (hfst ▸ h p hp) (lt_irrefl b)

theorem send_command_only_ignore (s : ProtState) (a : List Val) (r : Int) (i : Bool) :
    ∃ ig, (send_command s a r i).1 = { s with ignore_errors := ig } := by
  unfold send_command
  split_ifs with h1 h2
  · exact ⟨s.ignore_errors, rfl⟩
  · exact ⟨s.ignore_errors ++ [r], rfl⟩
  · exact ⟨s.ignore_errors, rfl⟩

theorem wfs_ignore (s : ProtState) (ig : List Int) (hs : WFS s) :
    WFS { s with ignore_errors := ig } :=
  @wfs_congr s { s with ignore_errors := ig } rfl hs

theorem wfs_send_command (s : ProtState) (a : List Val) (r : Int) (i : Bool)
    (hs : WFS s) : WFS (send_command s a r i).1 := by
  obtain ⟨ig, hig⟩ := send_command_only_ignore s a r i
  rw [hig]
  exact wfs_ignore s ig hs

theorem property_id_lookup_some {s : ProtState} {n : String} {i : Int}
    (hs : WFS s) (h : alookup s.properties n = some i) :
    property_id s n = (i, s) := by
  have hmem := mem_of_alookup_some h
  have hlt : i < s.last_property := hs.plt (n, i) hmem
  unfold property_id
  rw [h]
  simp [ne_of_lt hlt]

theorem property_id_lookup_none {s : ProtState} {n : String}
    (h : alookup s.properties n = none) :
    property_id s n =
      (s.last_property,
        { s with
            properties := upsert s.properties n s.last_property
            reverse_properties := upsert s.reverse_properties s.last_property n
            last_property := s.last_property + 1 }) := by
  unfold property_id
  rw [h]
  simp

theorem wfs_alloc_property (s : ProtState) (n : String)
    (_h : alookup s.properties n = none) (hs : WFS s) :
    WFS { s with
        properties := upsert s.properties n s.last_property
        reverse_properties := upsert s.reverse_properties s.last_property n
        last_property := s.last_property + 1 } := by
  constructor <;> dsimp only
  · have := hs.h20; omega
  · exact hs.wkeys
  · intro p hp
    have := hs.wlt p hp
    omega
  · intro p hp
    rcases mem_upsert hp with h' | h'
    · rw [h']; dsimp only; omega
    · have := hs.plt p h'; omega
  · intro q hq
    rcases mem_upsert hq with h' | h'
    · rw [h']; dsimp only; omega
    · have := hs.rlt q h'; omega
  · intro p hp
    rcases mem_upsert hp with h' | h'
    · rw [h']
      exact alookup_upsert_self _ _ _
    · have hlt := hs.plt p h'
      rw [alookup_upsert_ne _ _ _ _ (ne_of_lt hlt)]
      exact hs.pr p h'
  · intro p hp
    have hlt := (hs.wlt p hp).2
    rw [alookup_upsert_ne _ _ _ _ (ne_of_lt hlt)]
    exact hs.wr p hp
  · rcases hs.plr with h' | ⟨hlt, hw, hr⟩
    · exact Or.inl h'
    · refine Or.inr ⟨by omega, hw, ?_⟩
      rw [alookup_upsert_ne _ _ _ _ (ne_of_lt hlt)]
      exact hr
  · exact hs.epend

theorem wfs_property_id (s : ProtState) (n : String) (hs : WFS s) :
    WFS (property_id s n).2 := by
  cases h : alookup s.properties n with
  | some i => rw [property_id_lookup_some hs h]; exact hs
  | none =>
      rw [property_id_lookup_none h]
      exact wfs_alloc_property s n h hs

theorem wfs_get_property (s : ProtState) (n : String) (r : Option Int) (i : Bool)
    (hs : WFS s) : WFS (get_property s n r i).1 := by
  cases r with
  | some rid => exact wfs_send_command _ _ _ _ hs
  | none => exact wfs_send_command _ _ _ _ (wfs_property_id s n hs)

theorem wait_property_start_state (s : ProtState) (n : String) (i : Bool) :
    ∃ ig, (wait_property_start s n i).1 =
      { s with
          waiting_properties := upsert s.waiting_properties s.last_property (Pending.get n)
          ignore_errors := ig
          last_property := s.last_property + 1 } := by
  obtain ⟨ig, hig⟩ := send_command_only_ignore
    { s with waiting_properties := upsert s.waiting_properties s.last_property (Pending.get n) }
    [Val.vStr "get_property", Val.vStr n] s.last_property i
  refine ⟨ig, ?_⟩
  unfold wait_property_start get_property
  dsimp only
  rw [hig]

theorem set_property_ack_state (s : ProtState) (n : String) (v : Val) (i : Bool) :
    ∃ ig, (set_property s n v true i).1 =
      { s with
          waiting_properties := upsert s.waiting_properties s.last_property (Pending.set n v)
          ignore_errors := ig
          last_property := s.last_property + 1 } := by
  obtain ⟨ig, hig⟩ := send_command_only_ignore
    { s with waiting_properties := upsert s.waiting_properties s.last_property (Pending.set n v) }
    [Val.vStr "set_property", Val.vStr n, v] s.last_property i
  refine ⟨ig, ?_⟩
  unfold set_property
  dsimp only
  rw [hig]
  rfl

theorem wfs_push_waiting (s : ProtState) (p : Pending) (hs : WFS s) :
    WFS { s with
        waiting_properties := upsert s.waiting_properties s.last_property p
        last_property := s.last_property + 1 } := by
  have hfresh : s.last_property ∉ akeys s.waiting_properties := by
    intro hmem
    obtain ⟨q, hq, hfst⟩ := List.mem_map.mp hmem
    exact absurd (hfst ▸ (hs.wlt q hq).2) (lt_irrefl _)
  constructor <;> dsimp only
  · have := hs.h20; omega
  · rw [akeys_upsert_not_mem _ hfresh]
    simp [List.nodup_append, hs.wkeys, hfresh]
  · intro q hq
    rcases mem_upsert hq with h' | h'
    · rw [h']; dsimp only
      have := hs.h20; omega
    · have := hs.wlt q h'
      exact ⟨this.1, by omega⟩
  · intro q hq; have := hs.plt q hq; omega
  · intro q hq; have := hs.rlt q hq; omega
  · exact hs.pr
  · intro q hq
    rcases mem_upsert hq with h' | h'
    · rw [h']; dsimp only
      exact lookup_none_of_lt hs.rlt
    · exact hs.wr q h'
  · rcases hs.plr with h' | ⟨hlt, hw, hr⟩
    · exact Or.inl h'
    · refine Or.inr ⟨by omega, ?_, hr⟩
      rw [alookup_upsert_ne _ _ _ _ (ne_of_lt hlt)]
      exact hw
  · exact hs.epend

theorem wfs_wait_property_start (s : ProtState) (n : String) (i : Bool)
    (hs : WFS s) : WFS (wait_property_start s n i).1 := by
  obtain ⟨ig, hig⟩ := wait_property_start_state s n i
  rw [hig]
  refine wfs_congr ?_ (wfs_push_waiting s (Pending.get n) hs)
  rfl

theorem wfs_set_property (s : ProtState) (n : String) (v : Val) (u : Bool) (i : Bool)
    (hs : WFS s) : WFS (set_property s n v u i).1 := by
  cases u with
  | false => exact wfs_send_command _ _ _ _ hs
  | true =>
      obtain ⟨ig, hig⟩ := set_property_ack_state s n v i
      rw [hig]
      refine wfs_congr ?_ (wfs_push_waiting s (Pending.set n v) hs)
      rfl

theorem wfs_observe_property (s : ProtState) (n : String) (i : Bool)
    (hs : WFS s) : WFS (observe_property s n i).1 :=
  wfs_send_command _ _ _ _ (wfs_property_id s n hs)

theorem wfs_next_event_start (s : ProtState) (e : String) (hs : WFS s) :
    WFS (next_event_start s e) := by
  constructor <;> dsimp only [next_event_start]
  · exact hs.h20
  · exact hs.wkeys
  · exact hs.wlt
  · exact hs.plt
  · exact hs.rlt
  · exact hs.pr
  · exact hs.wr
  · exact hs.plr
  · intro q hq st hst
    rcases mem_upsert hq with h' | h'
    · rw [h'] at hst
      dsimp only at hst
      rcases List.mem_append.mp hst with h1 | h1
      · cases hlk : alookup s.waiting_events e with
        | none => rw [hlk] at h1; simp at h1
        | some l =>
            rw [hlk] at h1
            exact hs.epend (e, l) (mem_of_alookup_some hlk) st (by simpa using h1)
      · simpa using h1
    · exact hs.epend q h' st hst

theorem checkAllPending_ok {l : List FutState}
    (h : ∀ st ∈ l, st = FutState.pending) : checkAllPending l = Except.ok () := by
  induction l with
  | nil => rfl
  | cons st rest ih =>
      have hst := h st (List.mem_cons_self st rest)
      subst hst
      exact ih (fun st' hst' => h st' (List.mem_cons_of_mem _ hst'))

theorem fireWaiters_eq {s : ProtState} (e : String)
    (hep : ∀ q ∈ s.waiting_events, ∀ st ∈ q.2, st = FutState.pending) :
    fireWaiters s e = Except.ok
      ({ s with waiting_events := upsert s.waiting_events e [] },
        (List.range ((alookup s.waiting_events e).getD []).length).map
          (fun k => Effect.eventFutSet e k)) := by
  unfold fireWaiters
  have hck : checkAllPending ((alookup s.waiting_events e).getD []) = Except.ok () := by
    cases hlk : alookup s.waiting_events e with
    | none => rfl
    | some l =>
        apply checkAllPending_ok
        intro st hst
        exact hep (e, l) (mem_of_alookup_some hlk) st (by simpa using hst)
  dsimp only
  rw [hck]

theorem wfs_clear_event (s : ProtState) (e : String) (hs : WFS s) :
    WFS { s with waiting_events := upsert s.waiting_events e [] } := by
  constructor <;> dsimp only
  · exact hs.h20
  · exact hs.wkeys
  · exact hs.wlt
  · exact hs.plt
  · exact hs.rlt
  · exact hs.pr
  · exact hs.wr
  · exact hs.plr
  · intro q hq st hst
    rcases mem_upsert hq with h' | h'
    · rw [h'] at hst
      simp at hst
    · exact hs.epend q h' st hst

theorem property_change_only_data (s : ProtState) (d : Datum) :
    ∃ dd, property_change s d = { s with data := dd } := by
  unfold property_change
  split
  · exact ⟨_, rfl⟩
  · exact ⟨s.data, rfl⟩

theorem send_command_state_false (s : ProtState) (a : List Val) (r : Int) :
    (send_command s a r false).1 = s := by
  unfold send_command
  split_ifs with h1 h2
  · rfl
  · exact absurd h2 (by simp)
  · rfl

theorem wfs_alloc_playlist (s : ProtState) (pn : Option PlaylistNew) (hs : WFS s) :
    WFS { s with
        playlist_request := s.last_property
        playlist_new := pn
        last_property := s.last_property + 1
        waiting_events := upsert s.waiting_events "pre-got-playlist" [] } := by
  constructor <;> dsimp only
  · have := hs.h20; omega
  · exact hs.wkeys
  · intro p hp
    have := hs.wlt p hp
    omega
  · intro p hp; have := hs.plt p hp; omega
  · intro q hq; have := hs.rlt q hq; omega
  · exact hs.pr
  · exact hs.wr
  · refine Or.inr ⟨by omega, ?_, ?_⟩
    · exact lookup_none_of_lt (fun p hp => (hs.wlt p hp).2)
    · exact lookup_none_of_lt hs.rlt
  · intro q hq st hst
    rcases mem_upsert hq with h' | h'
    · rw [h'] at hst
      simp at hst
    · exact hs.epend q h' st hst

theorem wfs_try_playlist (s : ProtState) (d : Datum) (hs : WFS s) :
    ∃ s1 effs, try_playlist s d = Except.ok (s1, effs) ∧ WFS s1 ∧
      s1.reverse_properties = s.reverse_properties ∧
      s1.properties = s.properties ∧
      s1.waiting_properties = s.waiting_properties ∧
      s.last_property ≤ s1.last_property := by
  unfold try_playlist
  split_ifs with hred
  · dsimp only [get_property]
    rw [send_command_state_false]
    have hep : ∀ q ∈ ({ s with
        playlist_request := s.last_property
        playlist_new := some
          { playlist_entry_id := d.playlist_entry_id
            playlist_insert_id := d.playlist_insert_id
            playlist_insert_num_entries := d.playlist_insert_num_entries }
        last_property := s.last_property + 1 } : ProtState).waiting_events,
        ∀ st ∈ q.2, st = FutState.pending := hs.epend
    rw [fireWaiters_eq "pre-got-playlist" hep]
    refine ⟨_, _, rfl, ?_, rfl, rfl, rfl, ?_⟩
    · exact wfs_alloc_playlist s _ hs
    · dsimp only; omega
  · exact ⟨s, [], rfl, hs, rfl, rfl, rfl, le_refl _⟩

theorem wfs_builtin (s : ProtState) (e : String) (d : Datum) (hs : WFS s) :
    ∃ s1 effs, builtin_step s e d = Except.ok (s1, effs) ∧ WFS s1 ∧
      s1.reverse_properties = s.reverse_properties ∧
      s1.properties = s.properties ∧
      s1.waiting_properties = s.waiting_properties ∧
      s.last_property ≤ s1.last_property := by
  unfold builtin_step
  split_ifs with h1 h2 h3
  · obtain ⟨dd, hdd⟩ := property_change_only_data s d
    rw [hdd]
    refine ⟨_, _, rfl, ?_, rfl, rfl, rfl, le_refl _⟩
    refine wfs_congr ?_ hs
    rfl
  · refine ⟨_, _, rfl, ?_, rfl, rfl, rfl, le_refl _⟩
    refine wfs_congr ?_ hs
    rfl
  · exact wfs_try_playlist s d hs
  · exact ⟨s, [], rfl, hs, rfl, rfl, rfl, le_refl _⟩

theorem wfs_try_handle (s : ProtState) (e : String) (d : Datum) (hs : WFS s) :
    ∃ s2 effs, try_handle_event s e d = Except.ok (s2, effs) ∧ WFS s2 ∧
      s2.reverse_properties = s.reverse_properties ∧
      s2.properties = s.properties ∧
      s2.waiting_properties = s.waiting_properties ∧
      s.last_property ≤ s2.last_property := by
  obtain ⟨s1, e1, hb, hw1, hr1, hp1, hwp1, hl1⟩ := wfs_builtin s e d hs
  unfold try_handle_event
  rw [hb]
  dsimp only
  rw [fireWaiters_eq e hw1.epend]
  refine ⟨_, _, rfl, wfs_clear_event s1 e hw1, ?_, ?_, ?_, ?_⟩ <;> dsimp only
  · exact hr1
  · exact hp1
  · exact hwp1
  · exact hl1

theorem consume_tag_only_ignore (s : ProtState) (r : Option Int) :
    ∃ ig, (consume_tag s r).2 = { s with ignore_errors := ig } := by
  unfold consume_tag
  cases r with
  | none => exact ⟨s.ignore_errors, rfl⟩
  | some rid =>
      by_cases h : rid ∈ s.ignore_errors
      · exact ⟨removeFirst s.ignore_errors rid, by simp [h]⟩
      · exact ⟨s.ignore_errors, by simp [h]⟩

theorem wfs_erase_waiting (s : ProtState) (rid : Int) (hs : WFS s) :
    WFS { s with waiting_properties := aerase s.waiting_properties rid } := by
  constructor <;> dsimp only
  · exact hs.h20
  · exact nodup_akeys_aerase rid hs.wkeys
  · intro p hp
    exact hs.wlt p (mem_of_mem_aerase hp)
  · exact hs.plt
  · exact hs.rlt
  · exact hs.pr
  · intro p hp
    exact hs.wr p (mem_of_mem_aerase hp)
  · rcases hs.plr with h' | ⟨hlt, hw, hr⟩
    · exact Or.inl h'
    · refine Or.inr ⟨hlt, ?_, hr⟩
      by_cases hreq : s.playlist_request = rid
      · subst hreq
        exact alookup_aerase_self hs.wkeys
      · rw [alookup_aerase_ne _ _ _ hreq]
        exact hw
  · exact hs.epend

theorem wfs_got_playlist (s : ProtState) (hs : WFS s) :
    WFS { s with
        waiting_events := upsert s.waiting_events "got-playlist" []
        playlist_request := -1
        playlist_new := none } := by
  constructor <;> dsimp only
  · exact hs.h20
  · exact hs.wkeys
  · exact hs.wlt
  · exact hs.plt
  · exact hs.rlt
  · exact hs.pr
  · exact hs.wr
  · exact Or.inl rfl
  · intro q hq st hst
    rcases mem_upsert hq with h' | h'
    · rw [h'] at hst
      simp at hst
    · exact hs.epend q h' st hst

theorem data_received_wf (s : ProtState) (d : Datum) (hs : WFS s) :
    ∃ s' effs, data_received_one s d = Except.ok (s', effs) ∧ WFS s' ∧
      s'.reverse_properties = s.reverse_properties ∧
      s'.properties = s.properties ∧
      s.last_property ≤ s'.last_property := by
  obtain ⟨ig, hig⟩ := consume_tag_only_ignore s d.request_id
  have hs0 : WFS { s with ignore_errors := ig } := wfs_ignore s ig hs
  unfold data_received_one
  dsimp only
  rw [hig]
  split_ifs with herr hcons
  · exact ⟨_, _, rfl, hs0, rfl, rfl, le_refl _⟩
  · obtain ⟨s2, e2, hth, hw2, hr2, hp2, hwp2, hl2⟩ :=
      wfs_try_handle { s with ignore_errors := ig } "error"
        (annotate_error { s with ignore_errors := ig } d) hs0
    rw [hth]
    exact ⟨s2, _, rfl, hw2, hr2, hp2, hl2⟩
  · cases hev : d.event with
    | some e =>
        obtain ⟨s2, e2, hth, hw2, hr2, hp2, hwp2, hl2⟩ :=
          wfs_try_handle { s with ignore_errors := ig } e d hs0
        dsimp only
        rw [hth]
        exact ⟨s2, _, rfl, hw2, hr2, hp2, hl2⟩
    | none =>
        cases hrid : d.request_id with
        | none => exact ⟨_, _, rfl, hs0, rfl, rfl, le_refl _⟩
        | some rid =>
            dsimp only
            cases hrev : alookup s.reverse_properties rid with
            | some property_name =>
                refine ⟨_, _, rfl, ?_, rfl, rfl, le_refl _⟩
                refine wfs_congr ?_ hs
                rfl
            | none =>
                split_ifs with hpl
                · rw [fireWaiters_eq "got-playlist" hs0.epend]
                  dsimp only
                  refine ⟨_, _, rfl, ?_, rfl, rfl, le_refl _⟩
                  refine wfs_congr ?_ (wfs_got_playlist { s with ignore_errors := ig } hs0)
                  rfl
                · cases hw : alookup s.waiting_properties rid with
                  | some p =>
                      cases p with
                      | get property_name =>
                          refine ⟨_, _, rfl, ?_, rfl, rfl, le_refl _⟩
                          refine wfs_congr ?_
                            (wfs_erase_waiting { s with ignore_errors := ig } rid hs0)
                          rfl
                      | set property_name value =>
                          refine ⟨_, _, rfl, ?_, rfl, rfl, le_refl _⟩
                          refine wfs_congr ?_
                            (wfs_erase_waiting { s with ignore_errors := ig } rid hs0)
                          rfl
                  | none => exact ⟨_, _, rfl, hs0, rfl, rfl, le_refl _⟩

theorem stepOp_wf {s s' : ProtState} {op : Op}
    (hs : WFS s) (h : stepOp s op = Except.ok s') : WFS s' := by
  cases op with
  | sendCmd a r i =>
      cases h
      exact wfs_send_command s a r i hs
  | getProp n r i =>
      cases h
      exact wfs_get_property s n r i hs
  | waitProp n i =>
      cases h
      exact wfs_wait_property_start s n i hs
  | nextEv e =>
      cases h
      exact wfs_next_event_start s e hs
  | setProp n v u i =>
      cases h
      exact wfs_set_property s n v u i hs
  | observeProp n i =>
      cases h
      exact wfs_observe_property s n i hs
  | recv d =>
      obtain ⟨s2, effs, heq, hw, _, _, _⟩ := data_received_wf s d hs
      dsimp only [stepOp] at h
      rw [heq] at h
      cases h
      exact hw

theorem runOps_wf {ops : List Op} {s s' : ProtState}
    (hs : WFS s) (h : runOps s ops = Except.ok s') : WFS s' := by
  induction ops generalizing s with
  | nil =>
      cases h
      exact hs
  | cons op rest ih =>
      dsimp only [runOps] at h
      cases hstep : stepOp s op with
      | error e => rw [hstep] at h; cases h
      | ok s1 =>
          rw [hstep] at h
          exact ih (stepOp_wf hs hstep) h

theorem reachable_wf {s : ProtState} (h : Reachable s) : WFS s := by
  obtain ⟨ops, hops⟩ := h
  exact runOps_wf wfs_init hops

/-!
## Frame lemmas for property-id stability and cache writes
-/

theorem fireWaiters_frame {s s' : ProtState} {e : String} {effs : List Effect}
    (h : fireWaiters s e = Except.ok (s', effs)) :
    s' = { s with waiting_events := upsert s.waiting_events e [] } := by
  unfold fireWaiters at h
  dsimp only at h
  split at h
  · cases h
  · cases h
    rfl

theorem builtin_step_data {s s1 : ProtState} {e : String} {d : Datum} {effs : List Effect}
    (he : e ≠ "property-change") (h : builtin_step s e d = Except.ok (s1, effs)) :
    s1.data = s.data := by
  unfold builtin_step at h
  rw [if_neg he] at h
  split_ifs at h with h2 h3
  · cases h
    rfl
  · unfold try_playlist at h
    split_ifs at h with h4
    · dsimp only [get_property] at h
      rw [send_command_state_false] at h
      split at h
      · cases h
      · rename_i s3 e3 heq
        cases h
        rw [fireWaiters_frame heq]
    · cases h
      rfl
  · cases h
    rfl

theorem try_handle_event_data {s s2 : ProtState} {e : String} {d : Datum} {effs : List Effect}
    (he : e ≠ "property-change") (h : try_handle_event s e d = Except.ok (s2, effs)) :
    s2.data = s.data := by
  unfold try_handle_event at h
  split at h
  · cases h
  · rename_i s1 e1 hb
    split at h
    · cases h
    · rename_i s2' e2 hfw
      cases h
      have hfr := fireWaiters_frame hfw
      have hd1 := builtin_step_data he hb
      rw [hfr]
      dsimp only
      exact hd1

/-- Classification of a successful, event-free reply whose correlation id is
recorded as an awaited `GET`: under the session invariant it reaches the
pending-request branch of `data_received`, fulfils that future with the
reply's `data`, caches the value, and deletes the entry. -/
theorem data_received_pending_get {s : ProtState} {d : Datum} {rid : Int} {nm : String}
    (hs : WFS s) (hrid : d.request_id = some rid) (herr : isErrorVal d.error = false)
    (hev : d.event = none) (hw : alookup s.waiting_properties rid = some (Pending.get nm)) :
    data_received_one s d = Except.ok
      ({ (consume_tag s d.request_id).2 with
          waiting_properties := aerase s.waiting_properties rid
          data := upsert s.data nm d.data },
        [Effect.futResult rid d.data]) := by
  have hmem := mem_of_alookup_some hw
  have hrev : alookup s.reverse_properties rid = none := hs.wr _ hmem
  have hpl : rid ≠ s.playlist_request := by
    rcases hs.plr with h' | ⟨_, hw', _⟩
    · rw [h']
      have := (hs.wlt _ hmem).1
      omega
    · intro hcontra
      rw [hcontra] at hw
      rw [hw'] at hw
      cases hw
  obtain ⟨ig, hig⟩ := consume_tag_only_ignore s d.request_id
  unfold data_received_one
  dsimp only
  rw [hrid] at hig
  rw [hrid, herr, hev, hig]
  simp only [Bool.false_eq_true, if_false]
  rw [hrev]
  rw [if_neg hpl, hw]

/-- Classification of a successful, event-free acknowledgement whose
correlation id is recorded as a `SET`-with-ack: under the session invariant
it reaches the pending-request branch, writes the recorded value to the
cache and deletes the entry, emitting no fulfilment. -/
theorem data_received_pending_set {s : ProtState} {d : Datum} {rid : Int} {nm : String} {v : Val}
    (hs : WFS s) (hrid : d.request_id = some rid) (herr : isErrorVal d.error = false)
    (hev : d.event = none) (hw : alookup s.waiting_properties rid = some (Pending.set nm v)) :
    data_received_one s d = Except.ok
      ({ (consume_tag s d.request_id).2 with
          waiting_properties := aerase s.waiting_properties rid
          data := upsert s.data nm (some v) },
        []) := by
  have hmem := mem_of_alookup_some hw
  have hrev : alookup s.reverse_properties rid = none := hs.wr _ hmem
  have hpl : rid ≠ s.playlist_request := by
    rcases hs.plr with h' | ⟨_, hw', _⟩
    · rw [h']
      have := (hs.wlt _ hmem).1
      omega
    · intro hcontra
      rw [hcontra] at hw
      rw [hw'] at hw
      cases hw
  obtain ⟨ig, hig⟩ := consume_tag_only_ignore s d.request_id
  unfold data_received_one
  dsimp only
  rw [hrid] at hig
  rw [hrid, herr, hev, hig]
  simp only [Bool.false_eq_true, if_false]
  rw [hrev]
  rw [if_neg hpl, hw]

/-- The property a pending request is about. -/
def pendingName : Pending → String
  | Pending.get property_name => property_name
  | Pending.set property_name _ => property_name

/-- A decoded line that neither acknowledges nor otherwise writes the cache
entry of `nm`, judged against the reference state `sRef`: it is not a
`property-change` push, and its correlation id (if any) is neither a
property-query id that reverse-resolves to `nm` nor a pending request about
`nm`. -/
def untouchedBy (sRef : ProtState) (nm : String) (d : Datum) : Prop :=
  d.event ≠ some "property-change" ∧
  ∀ r, d.request_id = some r →
    alookup sRef.reverse_properties r ≠ some nm ∧
    ∀ p, alookup sRef.waiting_properties r = some p → pendingName p ≠ nm

instance (sRef : ProtState) (nm : String) (d : Datum) :
    Decidable (untouchedBy sRef nm d) := by
  unfold untouchedBy
  exact inferInstance

/-- `MpvProtocol.data_received` over a whole sequence of decoded lines,
keeping only the state. -/
def recvList : ProtState → List Datum → Except Exc ProtState
  | s, [] => Except.ok s
  | s, d :: rest =>
      match data_received_one s d with
      | Except.error e => Except.error e
      | Except.ok (s', _) => recvList s' rest

theorem data_received_untouched_step {sRef s1 : ProtState} {nm : String}
    {rid : Int} {v : Val} {d : Datum}
    (hws : WFS s1)
    (hrev : s1.reverse_properties = sRef.reverse_properties)
    (hsub : ∀ r p, alookup s1.waiting_properties r = some p →
      alookup sRef.waiting_properties r = some p)
    (hack : alookup s1.waiting_properties rid = some (Pending.set nm v))
    (hu : untouchedBy sRef nm d) :
    ∃ s2 effs, data_received_one s1 d = Except.ok (s2, effs) ∧ WFS s2 ∧
      s2.reverse_properties = sRef.reverse_properties ∧
      (∀ r p, alookup s2.waiting_properties r = some p →
        alookup sRef.waiting_properties r = some p) ∧
      alookup s2.waiting_properties rid = some (Pending.set nm v) ∧
      alookup s2.data nm = alookup s1.data nm := by
  obtain ⟨ig, hig⟩ := consume_tag_only_ignore s1 d.request_id
  have hs0 : WFS { s1 with ignore_errors := ig } := wfs_ignore s1 ig hws
  unfold data_received_one
  dsimp only
  rw [hig]
  split_ifs with herr hcons
  · exact ⟨_, _, rfl, hs0, hrev, hsub, hack, rfl⟩
  · obtain ⟨s2, e2, hth, hw2, hr2, hp2, hwp2, hl2⟩ :=
      wfs_try_handle { s1 with ignore_errors := ig } "error"
        (annotate_error { s1 with ignore_errors := ig } d) hs0
    rw [hth]
    have hd2 := try_handle_event_data
      (show ("error" : String) ≠ "property-change" by decide) hth
    refine ⟨s2, _, rfl, hw2, ?_, ?_, ?_, by rw [hd2]⟩
    · rw [hr2]; exact hrev
    · intro r p hp
      rw [hwp2] at hp
      exact hsub r p hp
    · rw [hwp2]
      exact hack
  · cases hev : d.event with
    | some e =>
        have hne : e ≠ "property-change" := by
          intro hcontra
          rw [hcontra] at hev
          exact hu.1 hev
        obtain ⟨s2, e2, hth, hw2, hr2, hp2, hwp2, hl2⟩ :=
          wfs_try_handle { s1 with ignore_errors := ig } e d hs0
        dsimp only
        rw [hth]
        have hd2 := try_handle_event_data hne hth
        refine ⟨s2, _, rfl, hw2, ?_, ?_, ?_, by rw [hd2]⟩
        · rw [hr2]; exact hrev
        · intro r p hp
          rw [hwp2] at hp
          exact hsub r p hp
        · rw [hwp2]
          exact hack
    | none =>
        cases hrid : d.request_id with
        | none => exact ⟨_, _, rfl, hs0, hrev, hsub, hack, rfl⟩
        | some r =>
            have hur := hu.2 r hrid
            dsimp only
            cases hrevr : alookup s1.reverse_properties r with
            | some pn =>
                have hpn : pn ≠ nm := by
                  intro hcontra
                  rw [hcontra] at hrevr
                  exact hur.1 (hrev ▸ hrevr)
                refine ⟨_, _, rfl, ?_, hrev, hsub, hack, ?_⟩
                · refine wfs_congr ?_ hws
                  rfl
                · dsimp only
                  exact alookup_upsert_ne _ _ _ _ (fun hh => hpn hh.symm)
            | none =>
                split_ifs with hpl
                · rw [fireWaiters_eq "got-playlist" hs0.epend]
                  dsimp only
                  refine ⟨_, _, rfl, ?_, hrev, hsub, hack, rfl⟩
                  refine wfs_congr ?_ (wfs_got_playlist { s1 with ignore_errors := ig } hs0)
                  rfl
                · cases hwr : alookup s1.waiting_properties r with
                  | some p =>
                      have hpname : pendingName p ≠ nm := hur.2 p (hsub r p hwr)
                      have hrrid : r ≠ rid := by
                        intro hcontra
                        rw [hcontra] at hwr
                        rw [hack] at hwr
                        cases hwr
                        exact hpname rfl
                      have hsub2 : ∀ r' p',
                          alookup (aerase s1.waiting_properties r) r' = some p' →
                          alookup sRef.waiting_properties r' = some p' := by
                        intro r' p' hp'
                        by_cases hr' : r' = r
                        · subst hr'
                          rw [alookup_aerase_self hws.wkeys] at hp'
                          cases hp'
                        · rw [alookup_aerase_ne _ _ _ hr'] at hp'
                          exact hsub r' p' hp'
                      have hack2 : alookup (aerase s1.waiting_properties r) rid =
                          some (Pending.set nm v) := by
                        rw [alookup_aerase_ne _ _ _ (fun hh => hrrid hh.symm)]
                        exact hack
                      cases p with
                      | get pn =>
                          refine ⟨_, _, rfl, ?_, hrev, hsub2, hack2, ?_⟩
                          · refine wfs_congr ?_
                              (wfs_erase_waiting { s1 with ignore_errors := ig } r hs0)
                            rfl
                          · dsimp only
                            exact alookup_upsert_ne _ _ _ _
                              (fun hh => hpname hh.symm)
                      | set pn v' =>
                          refine ⟨_, _, rfl, ?_, hrev, hsub2, hack2, ?_⟩
                          · refine wfs_congr ?_
                              (wfs_erase_waiting { s1 with ignore_errors := ig } r hs0)
                            rfl
                          · dsimp only
                            exact alookup_upsert_ne _ _ _ _
                              (fun hh => hpname hh.symm)
                  | none => exact ⟨_, _, rfl, hs0, hrev, hsub, hack, rfl⟩

theorem recv_untouched_run {sRef : ProtState} {nm : String} {rid : Int} {v : Val}
    {ds : List Datum} {s1 : ProtState}
    (hws : WFS s1)
    (hrev : s1.reverse_properties = sRef.reverse_properties)
    (hsub : ∀ r p, alookup s1.waiting_properties r = some p →
      alookup sRef.waiting_properties r = some p)
    (hack : alookup s1.waiting_properties rid = some (Pending.set nm v))
    (hu : ∀ d ∈ ds, untouchedBy sRef nm d) :
    ∃ s2, recvList s1 ds = Except.ok s2 ∧ WFS s2 ∧
      s2.reverse_properties = sRef.reverse_properties ∧
      (∀ r p, alookup s2.waiting_properties r = some p →
        alookup sRef.waiting_properties r = some p) ∧
      alookup s2.waiting_properties rid = some (Pending.set nm v) ∧
      alookup s2.data nm = alookup s1.data nm := by
  induction ds generalizing s1 with
  | nil => exact ⟨s1, rfl, hws, hrev, hsub, hack, rfl⟩
  | cons d rest ih =>
      obtain ⟨s2, effs, heq, hw2, hr2, hs2, ha2, hd2⟩ :=
        data_received_untouched_step hws hrev hsub hack
          (hu d (List.mem_cons_self d rest))
      obtain ⟨s3, heq3, hw3, hr3, hs3, ha3, hd3⟩ :=
        ih hw2 hr2 hs2 ha2 (fun d' hd' => hu d' (List.mem_cons_of_mem _ hd'))
      refine ⟨s3, ?_, hw3, hr3, hs3, ha3, by rw [hd3, hd2]⟩
      dsimp only [recvList]
      rw [heq]
      exact heq3

theorem property_id_stable {s : ProtState} (n' : String) {n : String} {i : Int}
    (hs : WFS s) (hb : alookup s.properties n = some i)
    (hrb : alookup s.reverse_properties i = some n) :
    alookup (property_id s n').2.properties n = some i ∧
    alookup (property_id s n').2.reverse_properties i = some n := by
  cases h : alookup s.properties n' with
  | some j =>
      rw [property_id_lookup_some hs h]
      exact ⟨hb, hrb⟩
  | none =>
      rw [property_id_lookup_none h]
      dsimp only
      have hne : n ≠ n' := by
        intro hcontra
        rw [hcontra, h] at hb
        cases hb
      have hilt : i < s.last_property := hs.rlt _ (mem_of_alookup_some hrb)
      constructor
      · rw [alookup_upsert_ne _ _ _ _ hne]
        exact hb
      · rw [alookup_upsert_ne _ _ _ _ (ne_of_lt hilt)]
        exact hrb

theorem stepOp_stable {s s' : ProtState} {op : Op}
    (hs : WFS s) (h : stepOp s op = Except.ok s')
    {n : String} {i : Int}
    (hb : alookup s.properties n = some i)
    (hrb : alookup s.reverse_properties i = some n) :
    alookup s'.properties n = some i ∧
    alookup s'.reverse_properties i = some n := by
  cases op with
  | sendCmd a r ie =>
      cases h
      obtain ⟨ig, hig⟩ := send_command_only_ignore s a r ie
      rw [hig]
      exact ⟨hb, hrb⟩
  | getProp nm r ie =>
      cases h
      cases r with
      | some rid =>
          obtain ⟨ig, hig⟩ := send_command_only_ignore s _ rid ie
          dsimp only [get_property]
          rw [hig]
          exact ⟨hb, hrb⟩
      | none =>
          obtain ⟨hb', hrb'⟩ := property_id_stable nm hs hb hrb
          obtain ⟨ig, hig⟩ := send_command_only_ignore (property_id s nm).2 _ (property_id s nm).1 ie
          dsimp only [get_property]
          rw [hig]
          exact ⟨hb', hrb'⟩
  | waitProp nm ie =>
      cases h
      obtain ⟨ig, hig⟩ := wait_property_start_state s nm ie
      rw [hig]
      exact ⟨hb, hrb⟩
  | nextEv e =>
      cases h
      exact ⟨hb, hrb⟩
  | setProp nm v u ie =>
      cases h
      cases u with
      | false =>
          obtain ⟨ig, hig⟩ := send_command_only_ignore s
            [Val.vStr "set_property", Val.vStr nm, v] 0 ie
          dsimp only [set_property]
          rw [if_pos rfl, hig]
          exact ⟨hb, hrb⟩
      | true =>
          obtain ⟨ig, hig⟩ := set_property_ack_state s nm v ie
          rw [hig]
          exact ⟨hb, hrb⟩
  | observeProp nm ie =>
      cases h
      obtain ⟨hb', hrb'⟩ := property_id_stable nm hs hb hrb
      obtain ⟨ig, hig⟩ := send_command_only_ignore (property_id s nm).2 _ 0 ie
      dsimp only [observe_property]
      rw [hig]
      exact ⟨hb', hrb'⟩
  | recv d =>
      obtain ⟨s2, effs, heq, hw, hr, hp, hl⟩ := data_received_wf s d hs
      dsimp only [stepOp] at h
      rw [heq] at h
      cases h
      rw [hr, hp]
      exact ⟨hb, hrb⟩

theorem runOps_stable {ops : List Op} {s s' : ProtState}
    (hs : WFS s) (h : runOps s ops = Except.ok s')
    {n : String} {i : Int}
    (hb : alookup s.properties n = some i)
    (hrb : alookup s.reverse_properties i = some n) :
    alookup s'.properties n = some i ∧
    alookup s'.reverse_properties i = some n := by
  induction ops generalizing s with
  | nil =>
      cases h
      exact ⟨hb, hrb⟩
  | cons op rest ih =>
      dsimp only [runOps] at h
      cases hstep : stepOp s op with
      | error e => rw [hstep] at h; cases h
      | ok s1 =>
          rw [hstep] at h
          obtain ⟨hb1, hrb1⟩ := stepOp_stable hs hstep hb hrb
          exact ih (stepOp_wf hs hstep) h hb1 hrb1

/-!
## Claim theorems: protocol engine
-/

/-- C1: in every reachable protocol state, outstanding awaited property
requests hold pairwise distinct correlation ids, and a successful, event-free
reply whose `request_id` matches a recorded awaited `GET` request fulfils
exactly that request's future with the reply's `data` (the only fulfilment
effect emitted), removes that pending entry, and leaves every other
outstanding pending request untouched. -/
theorem c1_pending_reply_routing {s : ProtState} {d : Datum} {rid : Int} {nm : String}
    (hreach : Reachable s)
    (hrid : d.request_id = some rid)
    (herr : isErrorVal d.error = false)
    (hev : d.event = none)
    (hw : alookup s.waiting_properties rid = some (Pending.get nm)) :
    (akeys s.waiting_properties).Nodup ∧
    ∃ s', data_received_one s d = Except.ok (s', [Effect.futResult rid d.data]) ∧
      alookup s'.waiting_properties rid = none ∧
      ∀ rid', rid' ≠ rid →
        alookup s'.waiting_properties rid' = alookup s.waiting_properties rid' := by
  have hs := reachable_wf hreach
  refine ⟨hs.wkeys, _, data_received_pending_get hs hrid herr hev hw, ?_, ?_⟩
  · dsimp only
    exact alookup_aerase_self hs.wkeys
  · intro rid' hne
    dsimp only
    exact alookup_aerase_ne _ _ _ hne

/-- Reachable state with two concurrently outstanding `wait_property` calls. -/
def c1Wit : ProtState :=
  match runOps initState
    [Op.waitProp "media-title" false, Op.waitProp "filename" false] with
  | Except.ok s => s
  | Except.error _ => initState

theorem c1_pending_reply_routing_witness :
    (akeys c1Wit.waiting_properties).Nodup ∧
    ∃ s', data_received_one c1Wit
        { request_id := some 20, error := some "success", data := some (Val.vStr "A Title") } =
        Except.ok (s', [Effect.futResult 20 (some (Val.vStr "A Title"))]) ∧
      alookup s'.waiting_properties 20 = none ∧
      ∀ rid', rid' ≠ 20 →
        alookup s'.waiting_properties rid' = alookup c1Wit.waiting_properties rid' :=
  @c1_pending_reply_routing c1Wit
    { request_id := some 20, error := some "success", data := some (Val.vStr "A Title") }
    20 "media-title"
    ⟨[Op.waitProp "media-title" false, Op.waitProp "filename" false], rfl⟩
    rfl rfl rfl (by decide)

/-- C2 (evaluation of the code at the failing inputs): when the transport
closes while a waiter for the synthetic `close` event is outstanding — the
exact situation `toggle_video` creates with `next_event("close")` — the
closure path cancels that waiter and then calls `set_result(True)` on the
cancelled future, raising `InvalidStateError`; and when a set-with-ack entry
is outstanding, `future.cancel()` is called on the raw stored value, raising
`AttributeError`.  Both runs of `connection_lost` raise instead of completing
the cancel-then-dispatch sequence. -/
theorem c2_connection_lost_raises :
    (∃ s, runOps initState [Op.nextEv "close"] = Except.ok s ∧
      connection_lost s = Except.error Exc.invalidStateError) ∧
    (∃ s, runOps initState [Op.setProp "pause" (Val.vBool true) true false] = Except.ok s ∧
      connection_lost s = Except.error Exc.attributeError) :=
  ⟨⟨_, rfl, rfl⟩, ⟨_, rfl, rfl⟩⟩

/-- C6: a set-with-ack (`set_property` with `update=True`) leaves the cache
untouched at send time; over any further inbound run that contains neither
the acknowledgement nor any other message writing that property, a cache
read still returns the pre-set value; and processing the successful
acknowledgement carrying the matching correlation id writes exactly the
recorded value to the cache. -/
theorem c6_set_ack_cache_update {s : ProtState} (hreach : Reachable s)
    (nm : String) (v : Val) (ds : List Datum) (ack : Datum)
    (hu : ∀ d ∈ ds, untouchedBy (set_property s nm v true false).1 nm d)
    (hrid : ack.request_id = some s.last_property)
    (herr : isErrorVal ack.error = false)
    (hev : ack.event = none) :
    (set_property s nm v true false).1.data = s.data ∧
    ∃ s2, recvList (set_property s nm v true false).1 ds = Except.ok s2 ∧
      alookup s2.data nm = alookup s.data nm ∧
      ∃ s3 effs, data_received_one s2 ack = Except.ok (s3, effs) ∧
        alookup s3.data nm = some (some v) := by
  have hs := reachable_wf hreach
  have hws' : WFS (set_property s nm v true false).1 :=
    wfs_set_property s nm v true false hs
  obtain ⟨ig, hig⟩ := set_property_ack_state s nm v false
  have hack : alookup (set_property s nm v true false).1.waiting_properties
      s.last_property = some (Pending.set nm v) := by
    rw [hig]
    dsimp only
    exact alookup_upsert_self _ _ _
  obtain ⟨s2, heq, hw2, hr2, hs2, ha2, hd2⟩ :=
    recv_untouched_run hws' rfl (fun r p h => h) hack hu
  refine ⟨by rw [hig], s2, heq, ?_, ?_⟩
  · rw [hd2, hig]
  · refine ⟨_, _, data_received_pending_set hw2 hrid herr hev ha2, ?_⟩
    dsimp only
    exact alookup_upsert_self _ _ _

theorem c6_set_ack_cache_update_witness :
    (set_property initState "pause" (Val.vBool true) true false).1.data = initState.data ∧
    ∃ s2, recvList (set_property initState "pause" (Val.vBool true) true false).1
        [{ event := some "playback-restart" }] = Except.ok s2 ∧
      alookup s2.data "pause" = alookup initState.data "pause" ∧
      ∃ s3 effs, data_received_one s2 { request_id := some 20, error := some "success" } =
          Except.ok (s3, effs) ∧
        alookup s3.data "pause" = some (some (Val.vBool true)) :=
  c6_set_ack_cache_update ⟨[], rfl⟩ "pause" (Val.vBool true)
    [{ event := some "playback-restart" }] { request_id := some 20, error := some "success" }
    (by decide) rfl rfl rfl

/-- C9: observer-id assignment is idempotent and stable per property name in
every reachable state: a name already holding an id keeps exactly that id
(with the reverse lookup mapping it back) through `_property_id` itself and
through every further sequence of session operations, and a fresh name is
assigned the current counter value, registered in both directions. -/
theorem c9_observer_id_idempotent {s : ProtState} (hreach : Reachable s) (nm : String) :
    (∀ i, alookup s.properties nm = some i →
      property_id s nm = (i, s) ∧
      alookup s.reverse_properties i = some nm ∧
      ∀ ops s', runOps s ops = Except.ok s' →
        alookup s'.properties nm = some i ∧
        alookup s'.reverse_properties i = some nm ∧
        property_id s' nm = (i, s')) ∧
    (alookup s.properties nm = none →
      (property_id s nm).1 = s.last_property ∧
      alookup (property_id s nm).2.properties nm = some s.last_property ∧
      alookup (property_id s nm).2.reverse_properties s.last_property = some nm) := by
  have hs := reachable_wf hreach
  constructor
  · intro i hb
    have hrb : alookup s.reverse_properties i = some nm :=
      hs.pr _ (mem_of_alookup_some hb)
    refine ⟨property_id_lookup_some hs hb, hrb, ?_⟩
    intro ops s' h
    obtain ⟨hb', hrb'⟩ := runOps_stable hs h hb hrb
    exact ⟨hb', hrb', property_id_lookup_some (runOps_wf hs h) hb'⟩
  · intro hb
    rw [property_id_lookup_none hb]
    dsimp only
    exact ⟨rfl, alookup_upsert_self _ _ _, alookup_upsert_self _ _ _⟩

/-- Reachable state in which `pause` has been observed once (id 20). -/
def c9Wit : ProtState :=
  match runOps initState [Op.observeProp "pause" false] with
  | Except.ok s => s
  | Except.error _ => initState

theorem c9_observer_id_idempotent_witness :
    property_id c9Wit "pause" = (20, c9Wit) ∧
    alookup c9Wit.reverse_properties 20 = some "pause" ∧
    ∃ s', runOps c9Wit [Op.observeProp "pause" false, Op.getProp "pause" none true] =
        Except.ok s' ∧
      alookup s'.properties "pause" = some 20 ∧
      alookup s'.reverse_properties 20 = some "pause" ∧
      property_id s' "pause" = (20, s') := by
  have h := (c9_observer_id_idempotent
    ⟨[Op.observeProp "pause" false], rfl⟩ "pause").1 20 (by decide)
  obtain ⟨h1, h2, h3⟩ := h
  obtain ⟨h4, h5, h6⟩ := h3 [Op.observeProp "pause" false, Op.getProp "pause" none true] _ rfl
  exact ⟨h1, h2, _, rfl, h4, h5, h6⟩

/-- C10: `send_command` on a closing (or closed) transport is a total no-op:
it writes nothing, changes no protocol state — the ignore-errors tag list
included — and raises no exception. -/
theorem c10_send_command_closed_noop (s : ProtState) (args : List Val)
    (request_id : Int) (ignore_error : Bool)
    (h : s.transport_closing = true) :
    send_command s args request_id ignore_error = (s, []) := by
  unfold send_command
  rw [if_pos h]

theorem c10_send_command_closed_noop_witness :
    ({ initState with transport_closing := true } : ProtState).transport_closing = true ∧
    send_command { initState with transport_closing := true }
      [Val.vStr "quit"] 0 true = ({ initState with transport_closing := true }, []) :=
  ⟨rfl, c10_send_command_closed_noop _ _ _ _ rfl⟩

/-!
## Inbound classification (C3)
-/

/-- The correlation id of the line was tagged "ignore errors". -/
def taggedIgnore (s : ProtState) (d : Datum) : Prop :=
  ∃ rid, d.request_id = some rid ∧ rid ∈ s.ignore_errors

/-- Number of registered waiters for an event. -/
def waitersCount (s : ProtState) (e : String) : Nat :=
  ((alookup s.waiting_events e).getD []).length

theorem consume_tag_pos {s : ProtState} {rid : Int} (h : rid ∈ s.ignore_errors) :
    consume_tag s (some rid) =
      (true, { s with ignore_errors := removeFirst s.ignore_errors rid }) := by
  unfold consume_tag
  dsimp only
  rw [if_pos h]

theorem consume_tag_neg {s : ProtState} {rid : Int} (h : rid ∉ s.ignore_errors) :
    consume_tag s (some rid) = (false, s) := by
  unfold consume_tag
  dsimp only
  rw [if_neg h]

theorem consume_tag_untagged {s : ProtState} {d : Datum}
    (h : ¬ taggedIgnore s d) : consume_tag s d.request_id = (false, s) := by
  cases hrid : d.request_id with
  | none => rfl
  | some rid =>
      refine consume_tag_neg ?_
      intro hmem
      exact h ⟨rid, hrid, hmem⟩

/-- Tagged line carrying an error: silently discarded after removing the tag. -/
theorem data_received_ignored {s : ProtState} {d : Datum} {rid : Int}
    (hrid : d.request_id = some rid) (hmem : rid ∈ s.ignore_errors)
    (herr : isErrorVal d.error = true) :
    data_received_one s d = Except.ok
      ({ s with ignore_errors := removeFirst s.ignore_errors rid },
        [Effect.logIgnored]) := by
  unfold data_received_one
  dsimp only
  rw [hrid, consume_tag_pos hmem, herr]
  rfl

/-- Untagged line carrying an error: handled as an `error` event with the
annotated datum. -/
theorem data_received_error {s : ProtState} {d : Datum}
    (hntag : ¬ taggedIgnore s d) (herr : isErrorVal d.error = true) :
    data_received_one s d = try_handle_event s "error" (annotate_error s d) := by
  unfold data_received_one
  dsimp only
  rw [consume_tag_untagged hntag, herr]
  rfl

/-- Successful line carrying an event name: handled as that event. -/
theorem data_received_event {s : ProtState} {d : Datum} {e : String}
    (herr : isErrorVal d.error = false) (hev : d.event = some e) :
    data_received_one s d =
      try_handle_event (consume_tag s d.request_id).2 e d := by
  unfold data_received_one
  dsimp only
  rw [herr, hev]
  simp only [Bool.false_eq_true, if_false]

/-- Successful, event-free line whose id reverse-resolves to a property
name: bare property query reply, cache update only. -/
theorem data_received_bare_query {s : ProtState} {d : Datum} {rid : Int} {nm : String}
    (hrid : d.request_id = some rid) (herr : isErrorVal d.error = false)
    (hev : d.event = none) (hrev : alookup s.reverse_properties rid = some nm) :
    data_received_one s d = Except.ok
      ({ (consume_tag s d.request_id).2 with data := upsert s.data nm d.data }, []) := by
  obtain ⟨ig, hig⟩ := consume_tag_only_ignore s d.request_id
  unfold data_received_one
  dsimp only
  rw [hrid] at hig
  rw [hrid, herr, hev, hig]
  simp only [Bool.false_eq_true, if_false]
  rw [hrev]

/-- Successful, event-free line whose id equals the outstanding playlist
snapshot request: dispatches `got-playlist` and clears that request. -/
theorem data_received_got_playlist {s : ProtState} {d : Datum} {rid : Int}
    (hs : WFS s)
    (hrid : d.request_id = some rid) (herr : isErrorVal d.error = false)
    (hev : d.event = none) (hrev : alookup s.reverse_properties rid = none)
    (hpl : rid = s.playlist_request) :
    data_received_one s d = Except.ok
      ({ (consume_tag s d.request_id).2 with
          waiting_events := upsert s.waiting_events "got-playlist" []
          playlist_request := -1
          playlist_new := none },
        Effect.dispatchGotPlaylist d.data s.playlist_new ::
          (List.range (waitersCount s "got-playlist")).map
            (fun k => Effect.eventFutSet "got-playlist" k)) := by
  obtain ⟨ig, hig⟩ := consume_tag_only_ignore s d.request_id
  have hs0 : WFS { s with ignore_errors := ig } := wfs_ignore s ig hs
  unfold data_received_one
  dsimp only
  rw [hrid] at hig
  rw [hrid, herr, hev, hig]
  simp only [Bool.false_eq_true, if_false]
  rw [hrev, if_pos hpl, fireWaiters_eq "got-playlist" hs0.epend]
  rfl

/-- Successful, event-free line matching nothing: only logged. -/
theorem data_received_unknown {s : ProtState} {d : Datum}
    (herr : isErrorVal d.error = false) (hev : d.event = none)
    (hrest : ∀ rid, d.request_id = some rid →
      alookup s.reverse_properties rid = none ∧
      rid ≠ s.playlist_request ∧
      alookup s.waiting_properties rid = none) :
    data_received_one s d =
      Except.ok ((consume_tag s d.request_id).2, [Effect.logUnknown]) := by
  obtain ⟨ig, hig⟩ := consume_tag_only_ignore s d.request_id
  unfold data_received_one
  dsimp only
  rw [herr]
  simp only [Bool.false_eq_true, if_false]
  rw [hev]
  cases hrid : d.request_id with
  | none => rfl
  | some rid =>
      obtain ⟨h1, h2, h3⟩ := hrest rid hrid
      rw [hrid] at hig
      rw [hig]
      dsimp only
      rw [h1, if_neg h2, h3]

/-- Guarded evaluation of the pending-request branch (`GET`). -/
theorem data_received_pending_get_guard {s : ProtState} {d : Datum} {rid : Int} {nm : String}
    (hrid : d.request_id = some rid) (herr : isErrorVal d.error = false)
    (hev : d.event = none) (hrev : alookup s.reverse_properties rid = none)
    (hpl : rid ≠ s.playlist_request)
    (hw : alookup s.waiting_properties rid = some (Pending.get nm)) :
    data_received_one s d = Except.ok
      ({ (consume_tag s d.request_id).2 with
          waiting_properties := aerase s.waiting_properties rid
          data := upsert s.data nm d.data },
        [Effect.futResult rid d.data]) := by
  obtain ⟨ig, hig⟩ := consume_tag_only_ignore s d.request_id
  unfold data_received_one
  dsimp only
  rw [hrid] at hig
  rw [hrid, herr, hev, hig]
  simp only [Bool.false_eq_true, if_false]
  rw [hrev, if_neg hpl, hw]

/-- Guarded evaluation of the pending-request branch (`SET`). -/
theorem data_received_pending_set_guard {s : ProtState} {d : Datum} {rid : Int}
    {nm : String} {v : Val}
    (hrid : d.request_id = some rid) (herr : isErrorVal d.error = false)
    (hev : d.event = none) (hrev : alookup s.reverse_properties rid = none)
    (hpl : rid ≠ s.playlist_request)
    (hw : alookup s.waiting_properties rid = some (Pending.set nm v)) :
    data_received_one s d = Except.ok
      ({ (consume_tag s d.request_id).2 with
          waiting_properties := aerase s.waiting_properties rid
          data := upsert s.data nm (some v) },
        []) := by
  obtain ⟨ig, hig⟩ := consume_tag_only_ignore s d.request_id
  unfold data_received_one
  dsimp only
  rw [hrid] at hig
  rw [hrid, herr, hev, hig]
  simp only [Bool.false_eq_true, if_false]
  rw [hrev, if_neg hpl, hw]

theorem builtin_step_waiting_events_self {s s1 : ProtState} {e : String} {d : Datum}
    {e1 : List Effect} (h : builtin_step s e d = Except.ok (s1, e1)) :
    alookup s1.waiting_events e = alookup s.waiting_events e := by
  unfold builtin_step at h
  split_ifs at h with h1 h2 h3
  · obtain ⟨dd, hdd⟩ := property_change_only_data s d
    rw [hdd] at h
    cases h
    rfl
  · cases h
    rfl
  · unfold try_playlist at h
    split_ifs at h with h4
    · dsimp only [get_property] at h
      rw [send_command_state_false] at h
      split at h
      · cases h
      · rename_i s3 e3 heq
        cases h
        rw [fireWaiters_frame heq]
        dsimp only
        rw [h3]
        exact alookup_upsert_ne _ _ _ _ (by decide)
    · cases h
      rfl
  · cases h
    rfl

theorem try_handle_event_spec (s : ProtState) (e : String) (d : Datum) (hs : WFS s) :
    ∃ s2 effs, try_handle_event s e d = Except.ok (s2, effs) ∧
      (∃ mid, effs = Effect.dispatch e d :: mid ++
        (List.range (waitersCount s e)).map (fun k => Effect.eventFutSet e k)) ∧
      alookup s2.waiting_events e = some [] := by
  obtain ⟨s1, e1, hb, hw1, hr1, hp1, hwp1, hl1⟩ := wfs_builtin s e d hs
  have hwe : alookup s1.waiting_events e = alookup s.waiting_events e :=
    builtin_step_waiting_events_self hb
  unfold try_handle_event
  rw [hb]
  dsimp only
  rw [fireWaiters_eq e hw1.epend]
  refine ⟨_, _, rfl, ⟨e1, ?_⟩, ?_⟩
  · rw [hwe]
    rfl
  · dsimp only
    exact alookup_upsert_self _ _ _

theorem annotate_error_resolves {s : ProtState} {d : Datum} {rid : Int} {nm : String}
    (hrid : d.request_id = some rid)
    (hrev : alookup s.reverse_properties rid = some nm) :
    (annotate_error s d).property_name = some nm := by
  unfold annotate_error
  rw [hrid]
  dsimp only [Option.bind]
  rw [hrev]

/-- C3 (amended): for every decoded inbound line, in every reachable state,
classification follows the code's priority order and never raises:
(1) a request id tagged ignore-errors carrying a non-success error is
silently discarded (only the tag is consumed); (2) otherwise a non-success
error dispatches an `error` event annotated with the reverse-looked-up
property name when resolvable; (3) otherwise a message with an event name
dispatches to that event's handlers and fulfils its waiters in registration
order, clearing them; (4) otherwise an id matching a bare property query
only updates the cache; (4') otherwise an id equal to the outstanding
playlist snapshot request dispatches a `got-playlist` event carrying the
snapshot and the recorded insertion info, and clears that request;
(5) otherwise an id matching a pending request fulfils (`GET`) or caches
(`SET`) and removes it; (6) otherwise the message is only logged. -/
theorem c3_inbound_classification {s : ProtState} (hreach : Reachable s) (d : Datum) :
    ∃ s' effs, data_received_one s d = Except.ok (s', effs) ∧
      (∀ rid, d.request_id = some rid → rid ∈ s.ignore_errors →
        isErrorVal d.error = true →
        effs = [Effect.logIgnored] ∧
        s' = { s with ignore_errors := removeFirst s.ignore_errors rid }) ∧
      (isErrorVal d.error = true → ¬ taggedIgnore s d →
        (∃ rest, effs = Effect.dispatch "error" (annotate_error s d) :: rest) ∧
        ∀ rid nm, d.request_id = some rid →
          alookup s.reverse_properties rid = some nm →
          (annotate_error s d).property_name = some nm) ∧
      (∀ e, isErrorVal d.error = false → d.event = some e →
        (∃ mid, effs = Effect.dispatch e d :: mid ++
          (List.range (waitersCount s e)).map (fun k => Effect.eventFutSet e k)) ∧
        alookup s'.waiting_events e = some []) ∧
      (∀ rid nm, isErrorVal d.error = false → d.event = none →
        d.request_id = some rid → alookup s.reverse_properties rid = some nm →
        effs = [] ∧ s'.data = upsert s.data nm d.data ∧
        s'.waiting_properties = s.waiting_properties) ∧
      (∀ rid, isErrorVal d.error = false → d.event = none →
        d.request_id = some rid → alookup s.reverse_properties rid = none →
        rid = s.playlist_request →
        (∃ rest, effs = Effect.dispatchGotPlaylist d.data s.playlist_new :: rest) ∧
        s'.playlist_request = -1 ∧ s'.playlist_new = none ∧
        s'.waiting_properties = s.waiting_properties ∧ s'.data = s.data) ∧
      (∀ rid p, isErrorVal d.error = false → d.event = none →
        d.request_id = some rid → alookup s.reverse_properties rid = none →
        rid ≠ s.playlist_request → alookup s.waiting_properties rid = some p →
        s'.waiting_properties = aerase s.waiting_properties rid ∧
        (∀ nm, p = Pending.get nm →
          effs = [Effect.futResult rid d.data] ∧ s'.data = upsert s.data nm d.data) ∧
        (∀ nm v, p = Pending.set nm v →
          effs = [] ∧ s'.data = upsert s.data nm (some v))) ∧
      (isErrorVal d.error = false → d.event = none →
        (∀ rid, d.request_id = some rid →
          alookup s.reverse_properties rid = none ∧
          rid ≠ s.playlist_request ∧
          alookup s.waiting_properties rid = none) →
        effs = [Effect.logUnknown] ∧ s' = (consume_tag s d.request_id).2) := by
  have hs := reachable_wf hreach
  obtain ⟨s', effs, heq, hwf', hrev', hprop', hlast'⟩ := data_received_wf s d hs
  refine ⟨s', effs, heq, ?_, ?_, ?_, ?_, ?_, ?_, ?_⟩
  · intro rid hrid hmem herr
    have h2 := data_received_ignored hrid hmem herr
    rw [heq] at h2
    simp only [Except.ok.injEq, Prod.mk.injEq] at h2
    exact ⟨h2.2, h2.1⟩
  · intro herr hntag
    have h2 := data_received_error hntag herr
    rw [heq] at h2
    obtain ⟨s2, effs2, hth, ⟨mid, hmid⟩, hcl⟩ :=
      try_handle_event_spec s "error" (annotate_error s d) hs
    rw [hth] at h2
    simp only [Except.ok.injEq, Prod.mk.injEq] at h2
    refine ⟨⟨mid ++ (List.range (waitersCount s "error")).map
      (fun k => Effect.eventFutSet "error" k), by rw [h2.2, hmid, List.cons_append]⟩, ?_⟩
    intro rid nm hrid hrevnm
    exact annotate_error_resolves hrid hrevnm
  · intro e herr hev
    obtain ⟨ig, hig⟩ := consume_tag_only_ignore s d.request_id
    have h2 := @data_received_event s d e herr hev
    rw [heq, hig] at h2
    have hs0 : WFS { s with ignore_errors := ig } := wfs_ignore s ig hs
    obtain ⟨s2, effs2, hth, ⟨mid, hmid⟩, hcl⟩ :=
      try_handle_event_spec { s with ignore_errors := ig } e d hs0
    rw [hth] at h2
    simp only [Except.ok.injEq, Prod.mk.injEq] at h2
    constructor
    · refine ⟨mid, ?_⟩
      rw [h2.2, hmid]
      rfl
    · rw [h2.1]
      exact hcl
  · intro rid nm herr hev hrid hrevnm
    have h2 := data_received_bare_query hrid herr hev hrevnm
    rw [heq] at h2
    obtain ⟨ig, hig⟩ := consume_tag_only_ignore s d.request_id
    rw [hig] at h2
    simp only [Except.ok.injEq, Prod.mk.injEq] at h2
    refine ⟨h2.2, ?_, ?_⟩
    · rw [h2.1]
    · rw [h2.1]
  · intro rid herr hev hrid hrevnone hpl
    have h2 := data_received_got_playlist hs hrid herr hev hrevnone hpl
    rw [heq] at h2
    obtain ⟨ig, hig⟩ := consume_tag_only_ignore s d.request_id
    rw [hig] at h2
    simp only [Except.ok.injEq, Prod.mk.injEq] at h2
    refine ⟨⟨_, h2.2⟩, ?_, ?_, ?_, ?_⟩ <;> rw [h2.1]
  · intro rid p herr hev hrid hrevnone hne hw
    cases p with
    | get nm =>
        have h2 := data_received_pending_get_guard hrid herr hev hrevnone hne hw
        rw [heq] at h2
        obtain ⟨ig, hig⟩ := consume_tag_only_ignore s d.request_id
        rw [hig] at h2
        simp only [Except.ok.injEq, Prod.mk.injEq] at h2
        refine ⟨by rw [h2.1], ?_, ?_⟩
        · intro nm' hnm'
          cases hnm'
          exact ⟨h2.2, by rw [h2.1]⟩
        · intro nm' v' hnm'
          cases hnm'
    | set nm v =>
        have h2 := data_received_pending_set_guard hrid herr hev hrevnone hne hw
        rw [heq] at h2
        obtain ⟨ig, hig⟩ := consume_tag_only_ignore s d.request_id
        rw [hig] at h2
        simp only [Except.ok.injEq, Prod.mk.injEq] at h2
        refine ⟨by rw [h2.1], ?_, ?_⟩
        · intro nm' hnm'
          cases hnm'
        · intro nm' v' hnm'
          cases hnm'
          exact ⟨h2.2, by rw [h2.1]⟩
  · intro herr hev hrest
    have h2 := data_received_unknown herr hev hrest
    rw [heq] at h2
    simp only [Except.ok.injEq, Prod.mk.injEq] at h2
    exact ⟨h2.2, h2.1⟩

/-- C3 counterexample to the claim as stated: after an `end-file` redirect,
the playlist snapshot request id (20) is outstanding.  A successful,
event-free line carrying that id satisfies none of the claim's cases
(1)-(5) — it is not tagged, carries no error and no event name, matches no
bare property query and no pending request — so by the claim's case (6) it
should be "only logged"; the code instead dispatches a `got-playlist`
event. -/
theorem c3_inbound_classification_counterexample :
    ∃ s s' effs,
      runOps initState [Op.recv { event := some "end-file", reason := some "redirect" }] =
        Except.ok s ∧
      (20 : Int) ∉ s.ignore_errors ∧
      isErrorVal ({ request_id := some 20, data := some (Val.vStr "pl") } : Datum).error
        = false ∧
      ({ request_id := some 20, data := some (Val.vStr "pl") } : Datum).event = none ∧
      alookup s.reverse_properties 20 = none ∧
      alookup s.waiting_properties 20 = none ∧
      data_received_one s { request_id := some 20, data := some (Val.vStr "pl") } =
        Except.ok (s', effs) ∧
      effs = [Effect.dispatchGotPlaylist (some (Val.vStr "pl"))
        (some { playlist_entry_id := none, playlist_insert_id := none,
                playlist_insert_num_entries := none })] ∧
      effs ≠ [Effect.logUnknown] :=
  ⟨_, _, _, rfl, by decide, rfl, rfl, by decide, by decide, rfl, rfl, by decide⟩

theorem c3_inbound_classification_witness :
    ∃ s' effs,
      data_received_one initState { request_id := some 20, error := some "success" } =
        Except.ok (s', effs) ∧
      effs = [Effect.logUnknown] ∧ s' = initState := by
  obtain ⟨s', effs, heq, _, _, _, _, _, _, h6⟩ :=
    c3_inbound_classification ⟨[], rfl⟩ { request_id := some 20, error := some "success" }
  obtain ⟨he, hst⟩ := h6 rfl rfl (by decide)
  refine ⟨s', effs, heq, he, ?_⟩
  rw [hst]
  rfl

/-!
## Playlist reconciliation (`mpv.py`: `MpvPlaylist`, `MpvWrapper`, `MpvManager`)
-/

/-- An entry of `playlist_id_to_extra_data`: the tuple
`(filename, write_markdown, unmarkdown)`. -/
structure ExtraData where
  filename : String
  write_markdown : Bool
  unmarkdown : Bool
deriving Repr, DecidableEq

/-- One item of the playlist snapshot reported by mpv. -/
structure PlItem where
  id : Int
  filename : String
  title : Option String := none
  current : Bool := false
deriving Repr, DecidableEq

/-- The payload of a `got-playlist` event (`data["playlist"]` and the three
fields of `data["new"]`, assumed present as the engine recorded them). -/
structure GotPlaylistData where
  playlist : List PlItem
  playlist_entry_id : Int
  playlist_insert_id : Int
  playlist_insert_num_entries : Int
deriving Repr, DecidableEq

/-- Observable actions of the reconciliation layer (nvim callbacks, error
reports, commands to mpv). -/
inductive PEffect where
  | showError (msg : String)
  | asyncPaste (items : List PlItem) (origin : Int)
  | asyncNewBuffer (items : List PlItem) (origin : Int)
  | asyncUpdateCurrent (playlist_from_mpv : List PlItem) (current redirected : Int)
  | markdownTask (link : String) (extmark_id : Int)
  | playlistRemove (index : Nat)
deriving Repr, DecidableEq

/-- The mutable state of `MpvPlaylist`. -/
structure PlaylistState where
  playlist_item_lines : List Int
  playlist_id_to_extra_data : List (Int × ExtraData)
  playlist_id_to_extmark_id : List (Int × Int)
  playlist_id_remap : List (Int × Int)
  updated_indices : List (Int × Int)
  new_extra_data : Option (List (Int × Option ExtraData)) := none
  loaded_titles : List (String × String) := []
deriving Repr, DecidableEq

/-- Python `enumerate`, starting at `k`. -/
def pyEnumFrom {α : Type} (k : Nat) : List α → List (Nat × α)
  | [] => []
  | a :: rest => (k, a) :: pyEnumFrom (k + 1) rest

/-- Python `enumerate`. -/
def pyEnum {α : Type} (l : List α) : List (Nat × α) := pyEnumFrom 0 l

/-- Python `range(a, b)` as the list of its elements. -/
def intRange (a b : Int) : List Int :=
  (List.range (b - a).toNat).map (fun (k : Nat) => a + (k : Int))

/-- Descending insertion. -/
def insertDesc (x : Nat) : List Nat → List Nat
  | [] => [x]
  | y :: ys => if y ≤ x then x :: y :: ys else y :: insertDesc x ys

/-- Python `list.sort(reverse=True)` on distinct naturals. -/
def sortDesc (l : List Nat) : List Nat := l.foldr insertDesc []

/-- The `for i, playlist_entry in enumerate(data["playlist"])` loop of
`MpvPlaylist.update`, building `new_extra_data` and `_loaded_titles`
(`playlist_entry["title"]` raises `KeyError` when absent). -/
def update_extra_loop (old_extra : List (Int × ExtraData)) (start stop : Int) :
    List (Nat × PlItem) → List (Int × Option ExtraData) → List (String × String) →
    Except Exc (List (Int × Option ExtraData) × List (String × String))
  | [], acc, titles => Except.ok (acc, titles)
  | (i, item) :: rest, acc, titles =>
      if ¬(start ≤ item.id ∧ item.id < stop) then
        update_extra_loop old_extra start stop rest
          (upsert acc ((i : Int) + 1) (alookup old_extra item.id)) titles
      else
        match item.title with
        | none => Except.error Exc.keyError
        | some t =>
            update_extra_loop old_extra start stop rest
              (upsert acc ((i : Int) + 1)
                (some { filename := item.filename, write_markdown := false, unmarkdown := false }))
              (upsert titles item.filename t)

/-- `MpvPlaylist.update` (the manager's `update_action` and the wrapper's
`no_draw` flag are passed explicitly; nvim callbacks become effects). -/
def playlist_update (ps : PlaylistState) (update_action : String) (no_draw : Bool)
    (data : GotPlaylistData) : Except Exc (PlaylistState × Bool × List PEffect) :=
  let original_entry := data.playlist_entry_id
  let start := data.playlist_insert_id
  let stop := start + data.playlist_insert_num_entries
  let do_stay := update_action = "stay" ∨
    (ps.playlist_id_to_extmark_id.length > 1 ∧
      (update_action = "paste_one" ∨ update_action = "new_one"))
  let ps1 := { ps with updated_indices := upsert ps.updated_indices original_entry start }
  match update_extra_loop ps1.playlist_id_to_extra_data start stop
      (pyEnum data.playlist) [] ps1.loaded_titles with
  | Except.error e => Except.error e
  | Except.ok (ned, titles) =>
      let ps2 := { ps1 with new_extra_data := some ned, loaded_titles := titles }
      if do_stay then
        Except.ok
          ({ ps2 with playlist_id_remap :=
              ((intRange start stop).foldl (fun m i => upsert m i original_entry)
                ps2.playlist_id_remap) },
            no_draw, [])
      else if update_action = "paste" ∨ update_action = "paste_one" then
        Except.ok (ps2, true,
          [PEffect.asyncPaste
            (data.playlist.filter (fun it => decide (start ≤ it.id ∧ it.id < stop)))
            original_entry])
      else if update_action = "new_one" then
        Except.ok (ps2, true,
          [PEffect.asyncNewBuffer
            (data.playlist.filter (fun it => decide (start ≤ it.id ∧ it.id < stop)))
            original_entry])
      else
        Except.ok (ps2, no_draw, [])

/-- `MpvPlaylist.forward_deletions`: returns the arguments of the
`playlist-remove` commands in emission order. -/
def forward_deletions (ps : PlaylistState) (playlist_from_mpv : List PlItem)
    (removed_items : List Int) : List Nat :=
  let playlist_ids :=
    (ps.playlist_id_to_extmark_id.filter (fun p => decide (p.2 ∈ removed_items))).map Prod.fst
  let static_deletions := removed_items.flatMap (fun i =>
    (ps.playlist_id_remap.filter (fun p => decide (p.2 = i))).map Prod.fst)
  let ids := playlist_ids ++ static_deletions
  let removed_indices :=
    ((pyEnum playlist_from_mpv).filter (fun p => decide (p.2.id ∈ ids))).map Prod.fst
  sortDesc removed_indices

/-- `MpvWrapper._preamble` (the `file-loaded` handler; `protocol.data` and
`protocol.last_playlist_entry_id` are passed explicitly). -/
def preamble (ps : PlaylistState) (no_draw : Bool) (last_playlist_entry_id : Int)
    (playlist_from_mpv : List PlItem) : Except Exc (PlaylistState × Bool × List PEffect) :=
  let current := last_playlist_entry_id
  match alookup ps.playlist_id_remap current with
  | some redirected =>
      match alookup ps.playlist_id_to_extra_data redirected with
      | none => Except.error Exc.keyError
      | some _ =>
          Except.ok (ps, no_draw,
            [PEffect.asyncUpdateCurrent playlist_from_mpv current redirected])
  | none =>
      match alookup ps.playlist_id_to_extmark_id current with
      | none =>
          Except.ok (ps, false, [PEffect.showError "Playlist transition failed!"])
      | some extmark_id =>
          match alookup ps.playlist_id_to_extra_data current with
          | none => Except.error Exc.keyError
          | some ed =>
              if ed.write_markdown then
                Except.ok (ps, no_draw, [PEffect.markdownTask ed.filename extmark_id])
              else
                Except.ok (ps, no_draw, [])

/-- Drop `pat` from the front of `cs`, or fail. -/
def dropMatching : List Char → List Char → Option (List Char)
  | [], cs => some cs
  | _ :: _, [] => none
  | p :: ps, c :: cs => if c = p then dropMatching ps cs else none

/-- The regex `YTDL_YOUTUBE_SEARCH
= ^ytdl://\s*ytsearch(\d*):` as a matcher returning the captured digit
group. -/
def ytdl_search_group (s : String) : Option String :=
  match dropMatching "ytdl://".toList s.toList with
  | none => none
  | some rest =>
      let rest2 := rest.dropWhile (fun c => c.isWhitespace)
      match dropMatching "ytsearch".toList rest2 with
      | none => none
      | some rest3 =>
          let digits := rest3.takeWhile (fun c => c.isDigit)
          match rest3.dropWhile (fun c => c.isDigit) with
          | ':' :: _ => some (String.mk digits)
          | _ => none

/-- `MpvManager._try_smart_youtube` (returns the new `update_action`). -/
def try_smart_youtube (filename : String) : String :=
  match ytdl_search_group filename with
  | some g => if g = "" ∨ g = "1" then "paste" else "new_one"
  | none => "new_one"

/-- The `update_action` initialisation fragment of `MpvManager.__init__`:
start from the plugin default, then
`if len(playlist_id_to_extra_data) == 1 and smart_youtube:
self._try_smart_youtube(playlist_id_to_extra_data[1][0])` (the `[1]` access
raises `KeyError` when the single entry is not keyed 1). -/
def manager_init_update_action (plugin_default : String)
    (playlist_id_to_extra_data : List (Int × ExtraData)) (smart_youtube : Bool) :
    Except Exc String :=
  if playlist_id_to_extra_data.length = 1 ∧ smart_youtube = true then
    match alookup playlist_id_to_extra_data 1 with
    | none => Except.error Exc.keyError
    | some ed => Except.ok (try_smart_youtube ed.filename)
  else
    Except.ok plugin_default

theorem insertDesc_perm (x : Nat) (l : List Nat) :
    List.Perm (insertDesc x l) (x :: l) := by
  induction l with
  | nil => rfl
  | cons y ys ih =>
      unfold insertDesc
      split_ifs with h
      · rfl
      · exact (List.Perm.cons y ih).trans (List.Perm.swap x y ys)

theorem sortDesc_perm (l : List Nat) : List.Perm (sortDesc l) l := by
  induction l with
  | nil => rfl
  | cons x xs ih =>
      exact (insertDesc_perm x (sortDesc xs)).trans (List.Perm.cons x ih)

theorem mem_sortDesc {l : List Nat} {n : Nat} : n ∈ sortDesc l ↔ n ∈ l :=
  (sortDesc_perm l).mem_iff

theorem insertDesc_pairwise_ge (x : Nat) {l : List Nat}
    (h : l.Pairwise (fun a b => b ≤ a)) :
    (insertDesc x l).Pairwise (fun a b => b ≤ a) := by
  induction l with
  | nil => simp [insertDesc]
  | cons y ys ih =>
      unfold insertDesc
      rcases h with _ | ⟨hy, hys⟩
      split_ifs with hxy
      · refine List.Pairwise.cons ?_ (List.Pairwise.cons hy hys)
        intro z hz
        rcases List.mem_cons.mp hz with hz | hz
        · omega
        · have := hy z hz
          omega
      · refine List.Pairwise.cons ?_ (ih hys)
        intro z hz
        rcases List.mem_cons.mp ((insertDesc_perm x ys).mem_iff.mp hz) with hz | hz
        · omega
        · exact hy z hz

theorem sortDesc_pairwise_ge (l : List Nat) :
    (sortDesc l).Pairwise (fun a b => b ≤ a) := by
  induction l with
  | nil => simp [sortDesc]
  | cons x xs ih => exact insertDesc_pairwise_ge x ih

theorem pairwise_and_of {α : Type} {R S : α → α → Prop} :
    ∀ {l : List α}, l.Pairwise R → l.Pairwise S →
      l.Pairwise (fun a b => R a b ∧ S a b) := by
  intro l hR hS
  induction l with
  | nil => exact List.Pairwise.nil
  | cons a rest ih =>
      rcases hR with _ | ⟨haR, hRrest⟩
      rcases hS with _ | ⟨haS, hSrest⟩
      exact List.Pairwise.cons (fun b hb => ⟨haR b hb, haS b hb⟩) (ih hRrest hSrest)

theorem sortDesc_pairwise_gt {l : List Nat} (h : l.Nodup) :
    (sortDesc l).Pairwise (· > ·) := by
  have hge := sortDesc_pairwise_ge l
  have hne : (sortDesc l).Nodup := (sortDesc_perm l).nodup_iff.mpr h
  exact (pairwise_and_of hge hne).imp (fun hab => by omega)

theorem mem_pyEnumFrom {α : Type} {l : List α} {k n : Nat} {a : α} :
    (n, a) ∈ pyEnumFrom k l ↔ k ≤ n ∧ l.get? (n - k) = some a := by
  induction l generalizing k with
  | nil => simp [pyEnumFrom]
  | cons b rest ih =>
      unfold pyEnumFrom
      constructor
      · intro h
        rcases List.mem_cons.mp h with h | h
        · injection h with h1 h2
          subst h1
          subst h2
          simp
        · obtain ⟨h1, h2⟩ := ih.mp h
          refine ⟨by omega, ?_⟩
          have hnk : n - k = (n - (k + 1)) + 1 := by omega
          rw [hnk]
          simpa using h2
      · rintro ⟨h1, h2⟩
        rcases Nat.eq_or_lt_of_le h1 with h1' | h1'
        · subst h1'
          simp at h2
          subst h2
          exact List.mem_cons_self _ _
        · refine List.mem_cons_of_mem _ (ih.mpr ⟨by omega, ?_⟩)
          have hnk : n - k = (n - (k + 1)) + 1 := by omega
          rw [hnk] at h2
          simpa using h2

theorem mem_pyEnum {α : Type} {l : List α} {n : Nat} {a : α} :
    (n, a) ∈ pyEnum l ↔ l.get? n = some a := by
  unfold pyEnum
  rw [mem_pyEnumFrom]
  simp

theorem pyEnumFrom_fst_le {α : Type} : ∀ (l : List α) (m : Nat),
    ∀ q ∈ pyEnumFrom m l, m ≤ q.1 := by
  intro l
  induction l with
  | nil =>
      intro m q hq
      simp [pyEnumFrom] at hq
  | cons b r ih =>
      intro m q hq
      rcases List.mem_cons.mp hq with h | h
      · rw [h]
      · have := ih (m + 1) q h
        omega

theorem pyEnumFrom_fst_lt {α : Type} : ∀ (l : List α) (k : Nat),
    (pyEnumFrom k l).Pairwise (fun p q => p.1 < q.1) := by
  intro l
  induction l with
  | nil =>
      intro k
      simp [pyEnumFrom]
  | cons b r ih =>
      intro k
      refine List.Pairwise.cons ?_ (ih (k + 1))
      intro q hq
      have := pyEnumFrom_fst_le r (k + 1) q hq
      simp only
      omega

theorem mem_enum_filter_map {α : Type} (l : List α) (P : α → Prop) [DecidablePred P]
    (n : Nat) :
    n ∈ ((pyEnum l).filter (fun p => decide (P p.2))).map Prod.fst ↔
      ∃ a, l.get? n = some a ∧ P a := by
  constructor
  · intro h
    obtain ⟨p, hp, hfst⟩ := List.mem_map.mp h
    obtain ⟨hmem, hP⟩ := List.mem_filter.mp hp
    obtain ⟨m, a⟩ := p
    cases hfst
    exact ⟨a, mem_pyEnum.mp hmem, of_decide_eq_true hP⟩
  · rintro ⟨a, hget, hP⟩
    refine List.mem_map.mpr ⟨(n, a), List.mem_filter.mpr ⟨mem_pyEnum.mpr hget, ?_⟩, rfl⟩
    exact decide_eq_true hP

theorem mem_resolved_ids_iff (ps : PlaylistState) (removed_items : List Int)
    (id : Int) :
    (id ∈ (ps.playlist_id_to_extmark_id.filter
        (fun p => decide (p.2 ∈ removed_items))).map Prod.fst ++
      removed_items.flatMap (fun i =>
        (ps.playlist_id_remap.filter (fun p => decide (p.2 = i))).map Prod.fst)) ↔
      ((∃ e ∈ ps.playlist_id_to_extmark_id, e.1 = id ∧ e.2 ∈ removed_items) ∨
       (∃ e ∈ ps.playlist_id_remap, e.1 = id ∧ e.2 ∈ removed_items)) := by
  rw [List.mem_append]
  simp only [List.mem_map, List.mem_filter, List.mem_flatMap, decide_eq_true_eq]
  constructor
  · rintro (⟨a, ⟨hmem, hrm⟩, hfst⟩ | ⟨i, hi, a, ⟨hmem, heq⟩, hfst⟩)
    · exact Or.inl ⟨a, hmem, hfst, hrm⟩
    · exact Or.inr ⟨a, hmem, hfst, heq ▸ hi⟩
  · rintro (⟨e, hmem, hfst, hrm⟩ | ⟨e, hmem, hfst, hrm⟩)
    · exact Or.inl ⟨e, ⟨hmem, hrm⟩, hfst⟩
    · exact Or.inr ⟨e.2, hrm, e, ⟨hmem, rfl⟩, hfst⟩

/-- C7: deletion forwarding resolves each externally deleted display handle
to player ids through the extmark map and (for handles recorded as remap
targets) through the remap table, computes each resolved id's current index
in the live playlist snapshot, and issues the `playlist-remove` commands in
strictly descending index order; the issued indices are exactly the live
indices of the resolved ids. -/
theorem c7_forward_deletions_descending (ps : PlaylistState)
    (playlist_from_mpv : List PlItem) (removed_items : List Int) :
    (forward_deletions ps playlist_from_mpv removed_items).Pairwise (· > ·) ∧
    ∀ n, n ∈ forward_deletions ps playlist_from_mpv removed_items ↔
      ∃ item, playlist_from_mpv.get? n = some item ∧
        ((∃ e ∈ ps.playlist_id_to_extmark_id, e.1 = item.id ∧ e.2 ∈ removed_items) ∨
         (∃ e ∈ ps.playlist_id_remap, e.1 = item.id ∧ e.2 ∈ removed_items)) := by
  constructor
  · apply sortDesc_pairwise_gt
    have hlt := (pyEnumFrom_fst_lt playlist_from_mpv 0).filter
      (fun p => decide (p.2.id ∈
        (ps.playlist_id_to_extmark_id.filter
          (fun q => decide (q.2 ∈ removed_items))).map Prod.fst ++
        removed_items.flatMap (fun i =>
          (ps.playlist_id_remap.filter (fun q => decide (q.2 = i))).map Prod.fst)))
    have hmap := List.pairwise_map.mpr hlt
    exact hmap.imp (fun h => Nat.ne_of_lt h)
  · intro n
    rw [show forward_deletions ps playlist_from_mpv removed_items =
      sortDesc (((pyEnum playlist_from_mpv).filter (fun p => decide (p.2.id ∈
        (ps.playlist_id_to_extmark_id.filter
          (fun q => decide (q.2 ∈ removed_items))).map Prod.fst ++
        removed_items.flatMap (fun i =>
          (ps.playlist_id_remap.filter (fun q => decide (q.2 = i))).map Prod.fst)))).map
        Prod.fst) from rfl]
    rw [mem_sortDesc,
      mem_enum_filter_map playlist_from_mpv (fun a => a.id ∈
        (ps.playlist_id_to_extmark_id.filter
          (fun q => decide (q.2 ∈ removed_items))).map Prod.fst ++
        removed_items.flatMap (fun i =>
          (ps.playlist_id_remap.filter (fun q => decide (q.2 = i))).map Prod.fst)) n]
    simp only [mem_resolved_ids_iff]

theorem mem_intRange {a b j : Int} : j ∈ intRange a b ↔ a ≤ j ∧ j < b := by
  constructor
  · intro h
    obtain ⟨k, hk, hj⟩ := List.mem_map.mp h
    rw [List.mem_range, Int.lt_toNat] at hk
    subst hj
    have hk0 : (0 : Int) ≤ (k : Int) := Int.ofNat_nonneg k
    omega
  · rintro ⟨h1, h2⟩
    refine List.mem_map.mpr ⟨(j - a).toNat, ?_, ?_⟩
    · rw [List.mem_range, Int.lt_toNat, Int.toNat_of_nonneg (by omega : (0:Int) ≤ j - a)]
      omega
    · rw [Int.toNat_of_nonneg (by omega : (0:Int) ≤ j - a)]
      omega

theorem foldl_upsert_const_lookup (c : Int) :
    ∀ (xs : List Int) (m : List (Int × Int)) (j : Int),
      alookup (xs.foldl (fun m i => upsert m i c) m) j =
        if j ∈ xs then some c else alookup m j := by
  intro xs
  induction xs with
  | nil => simp
  | cons x rest ih =>
      intro m j
      rw [List.foldl_cons, ih]
      by_cases hj : j ∈ rest
      · simp [hj]
      · by_cases hjx : j = x
        · subst hjx
          simp [hj, alookup_upsert_self]
        · simp [hj, hjx, alookup_upsert_ne _ _ _ _ hjx]

theorem update_extra_loop_ok (old_extra : List (Int × ExtraData)) (start stop : Int) :
    ∀ (items : List (Nat × PlItem)) (acc : List (Int × Option ExtraData))
      (titles : List (String × String)),
      (∀ p ∈ items, (start ≤ p.2.id ∧ p.2.id < stop) → p.2.title.isSome) →
      ∃ res, update_extra_loop old_extra start stop items acc titles = Except.ok res := by
  intro items
  induction items with
  | nil =>
      intro acc titles _
      exact ⟨_, rfl⟩
  | cons p rest ih =>
      intro acc titles htitles
      obtain ⟨i, item⟩ := p
      unfold update_extra_loop
      split_ifs with hin
      · have hsome : item.title.isSome :=
          htitles (i, item) (List.mem_cons_self _ _) hin
        cases htitle : item.title with
        | none =>
            rw [htitle] at hsome
            cases hsome
        | some t =>
            exact ih _ _ (fun q hq => htitles q (List.mem_cons_of_mem _ hq))
      · exact ih _ _ (fun q hq => htitles q (List.mem_cons_of_mem _ hq))

/-- The "stay" branch of `MpvPlaylist.update`, fully characterised on the
remap table: every inserted id maps to the originating entry, every id
outside the insert range keeps its previous mapping, the extmark map is
unchanged, no display effect is emitted and `no_draw` is untouched. -/
theorem playlist_update_stay_spec (ps : PlaylistState) (update_action : String)
    (no_draw : Bool) (data : GotPlaylistData)
    (hstay : update_action = "stay" ∨
      (ps.playlist_id_to_extmark_id.length > 1 ∧
        (update_action = "paste_one" ∨ update_action = "new_one")))
    (htitles : ∀ item ∈ data.playlist,
      (data.playlist_insert_id ≤ item.id ∧
        item.id < data.playlist_insert_id + data.playlist_insert_num_entries) →
      item.title.isSome) :
    ∃ ps', playlist_update ps update_action no_draw data =
        Except.ok (ps', no_draw, []) ∧
      (∀ i, data.playlist_insert_id ≤ i →
        i < data.playlist_insert_id + data.playlist_insert_num_entries →
        alookup ps'.playlist_id_remap i = some data.playlist_entry_id) ∧
      (∀ j, ¬(data.playlist_insert_id ≤ j ∧
          j < data.playlist_insert_id + data.playlist_insert_num_entries) →
        alookup ps'.playlist_id_remap j = alookup ps.playlist_id_remap j) ∧
      ps'.playlist_id_to_extmark_id = ps.playlist_id_to_extmark_id := by
  obtain ⟨res, hres⟩ := update_extra_loop_ok ps.playlist_id_to_extra_data
    data.playlist_insert_id (data.playlist_insert_id + data.playlist_insert_num_entries)
    (pyEnum data.playlist) [] ps.loaded_titles
    (by
      rintro ⟨i, item⟩ hp hin
      exact htitles item (List.get?_mem (mem_pyEnum.mp hp)) hin)
  obtain ⟨ned, titles⟩ := res
  unfold playlist_update
  dsimp only
  rw [hres]
  dsimp only
  rw [if_pos hstay]
  refine ⟨_, rfl, ?_, ?_, rfl⟩
  · intro i h1 h2
    dsimp only
    rw [foldl_upsert_const_lookup]
    rw [if_pos (mem_intRange.mpr ⟨h1, h2⟩)]
  · intro j hj
    dsimp only
    rw [foldl_upsert_const_lookup]
    rw [if_neg (fun hmem => hj (mem_intRange.mp hmem))]

/-- C4 (amended): on a playlist-expansion update whose effective action is
Stay — the configured action is "stay", or more than one playlist item
already exists and the configured action is a single-item-only convenience
(`paste_one`/`new_one`) — PROVIDED every inserted snapshot item carries a
title (otherwise `update` raises `KeyError` at `playlist_entry["title"]`
before the remap loop and records nothing, see the counterexample), the
remap table gains `IdRemap[new_id] = original_id` for every inserted id in
`[insert_start, insert_start + insert_count)`, no display mutation is
requested (`no_draw` untouched, no effects), ids outside the range keep
their previous mapping, and a second expansion with a disjoint insert range
(its inserted items again titled) accumulates its entries without
clobbering the first. -/
theorem c4_stay_accumulates_remaps (ps : PlaylistState) (update_action : String)
    (no_draw : Bool) (data : GotPlaylistData)
    (hstay : update_action = "stay" ∨
      (ps.playlist_id_to_extmark_id.length > 1 ∧
        (update_action = "paste_one" ∨ update_action = "new_one")))
    (htitles : ∀ item ∈ data.playlist,
      (data.playlist_insert_id ≤ item.id ∧
        item.id < data.playlist_insert_id + data.playlist_insert_num_entries) →
      item.title.isSome) :
    ∃ ps', playlist_update ps update_action no_draw data =
        Except.ok (ps', no_draw, []) ∧
      (∀ i, data.playlist_insert_id ≤ i →
        i < data.playlist_insert_id + data.playlist_insert_num_entries →
        alookup ps'.playlist_id_remap i = some data.playlist_entry_id) ∧
      (∀ j, ¬(data.playlist_insert_id ≤ j ∧
          j < data.playlist_insert_id + data.playlist_insert_num_entries) →
        alookup ps'.playlist_id_remap j = alookup ps.playlist_id_remap j) ∧
      ps'.playlist_id_to_extmark_id = ps.playlist_id_to_extmark_id ∧
      ∀ data2 : GotPlaylistData,
        (∀ item ∈ data2.playlist,
          (data2.playlist_insert_id ≤ item.id ∧
            item.id < data2.playlist_insert_id + data2.playlist_insert_num_entries) →
          item.title.isSome) →
        (data2.playlist_insert_id + data2.playlist_insert_num_entries ≤
            data.playlist_insert_id ∨
          data.playlist_insert_id + data.playlist_insert_num_entries ≤
            data2.playlist_insert_id) →
        ∃ ps'', playlist_update ps' update_action no_draw data2 =
            Except.ok (ps'', no_draw, []) ∧
          (∀ i, data.playlist_insert_id ≤ i →
            i < data.playlist_insert_id + data.playlist_insert_num_entries →
            alookup ps''.playlist_id_remap i = some data.playlist_entry_id) ∧
          (∀ i, data2.playlist_insert_id ≤ i →
            i < data2.playlist_insert_id + data2.playlist_insert_num_entries →
            alookup ps''.playlist_id_remap i = some data2.playlist_entry_id) := by
  obtain ⟨ps', h1, h2, h3, h4⟩ :=
    playlist_update_stay_spec ps update_action no_draw data hstay htitles
  refine ⟨ps', h1, h2, h3, h4, ?_⟩
  intro data2 htitles2 hdisj
  have hstay2 : update_action = "stay" ∨
      (ps'.playlist_id_to_extmark_id.length > 1 ∧
        (update_action = "paste_one" ∨ update_action = "new_one")) := by
    rcases hstay with h | ⟨hlen, hx⟩
    · exact Or.inl h
    · exact Or.inr ⟨by rw [h4]; exact hlen, hx⟩
  obtain ⟨ps'', g1, g2, g3, g4⟩ :=
    playlist_update_stay_spec ps' update_action no_draw data2 hstay2 htitles2
  refine ⟨ps'', g1, ?_, g2⟩
  intro i hi1 hi2
  have hout : ¬(data2.playlist_insert_id ≤ i ∧
      i < data2.playlist_insert_id + data2.playlist_insert_num_entries) := by
    rcases hdisj with h | h <;> omega
  rw [g3 i hout]
  exact h2 i hi1 hi2

def c4WitPs : PlaylistState :=
  { playlist_item_lines := [0]
    playlist_id_to_extra_data :=
      [(1, { filename := "u", write_markdown := false, unmarkdown := false })]
    playlist_id_to_extmark_id := [(1, 201)]
    playlist_id_remap := []
    updated_indices := [] }

def c4WitData : GotPlaylistData :=
  { playlist := [{ id := 2, filename := "f2", title := some "t2", current := true },
                 { id := 3, filename := "f3", title := some "t3" }]
    playlist_entry_id := 1
    playlist_insert_id := 2
    playlist_insert_num_entries := 2 }

def c4WitData2 : GotPlaylistData :=
  { playlist := [{ id := 4, filename := "f4", title := some "t4", current := true }]
    playlist_entry_id := 3
    playlist_insert_id := 4
    playlist_insert_num_entries := 1 }

theorem c4_stay_accumulates_remaps_witness :
    ∃ ps', playlist_update c4WitPs "stay" false c4WitData = Except.ok (ps', false, []) ∧
      alookup ps'.playlist_id_remap 2 = some 1 ∧
      alookup ps'.playlist_id_remap 3 = some 1 ∧
      ∃ ps'', playlist_update ps' "stay" false c4WitData2 = Except.ok (ps'', false, []) ∧
        alookup ps''.playlist_id_remap 2 = some 1 ∧
        alookup ps''.playlist_id_remap 4 = some 3 := by
  obtain ⟨ps', h1, h2, h3, h4, h5⟩ :=
    c4_stay_accumulates_remaps c4WitPs "stay" false c4WitData (Or.inl rfl) (by decide)
  obtain ⟨ps'', g1, g2, g3⟩ := h5 c4WitData2 (by decide) (by decide)
  exact ⟨ps', h1, h2 2 (by decide) (by decide), h2 3 (by decide) (by decide),
    ps'', g1, g2 2 (by decide) (by decide), g3 4 (by decide) (by decide)⟩

def c4CexData : GotPlaylistData :=
  { playlist := [{ id := 2, filename := "f2" }]
    playlist_entry_id := 1
    playlist_insert_id := 2
    playlist_insert_num_entries := 1 }

/-- C4 counterexample to the claim as stated: under effective Stay (the
configured action is "stay"), a playlist expansion whose single inserted
snapshot item has no title makes `update` raise `KeyError` subscripting
`playlist_entry["title"]` before the remap loop runs: the update does not
complete, so in particular the remap table does not gain the entry
`IdRemap[2] = 1` the claim promises for the inserted id, and the
no-display-mutation outcome is never reached. -/
theorem c4_stay_accumulates_remaps_counterexample :
    playlist_update c4WitPs "stay" false c4CexData = Except.error Exc.keyError ∧
    ¬ ∃ ps', playlist_update c4WitPs "stay" false c4CexData =
        Except.ok (ps', false, []) ∧
      alookup ps'.playlist_id_remap 2 = some 1 := by
  refine ⟨rfl, ?_⟩
  rintro ⟨ps', h, -⟩
  rw [show playlist_update c4WitPs "stay" false c4CexData =
      Except.error Exc.keyError from rfl] at h
  exact Except.noConfusion h

/-- C5 counterexample to the claim as stated: a singleton playlist whose sole
reference is a plain URL (it does not resemble a multi-result query) does
NOT keep the configured default action ("stay"); smart inference overrides
it to "new_one" (the new-playlist-buffer action). -/
theorem c5_smart_singleton_counterexample :
    manager_init_update_action "stay"
      [(1, { filename := "https://example.com/a.mp4",
             write_markdown := false, unmarkdown := false })] true =
      Except.ok "new_one" ∧
    ("new_one" : String) ≠ "stay" :=
  ⟨rfl, by decide⟩

/-- C5 (amended): when smart inference is enabled and the initial playlist
is a singleton (keyed 1), the sole reference always determines the inferred
action: "paste" exactly when it is a single-result ytsearch query (captured
count blank or "1"), and "new_one" for every other reference — plain URLs
included; the configured default is kept only when the playlist is not a
singleton or smart inference is disabled. -/
theorem c5_smart_singleton_inference (plugin_default : String)
    (extra : List (Int × ExtraData)) (smart : Bool) :
    (∀ ed, extra.length = 1 → smart = true → alookup extra 1 = some ed →
      manager_init_update_action plugin_default extra smart =
        Except.ok (try_smart_youtube ed.filename) ∧
      (try_smart_youtube ed.filename = "paste" ↔
        ∃ g, ytdl_search_group ed.filename = some g ∧ (g = "" ∨ g = "1")) ∧
      (try_smart_youtube ed.filename = "paste" ∨
        try_smart_youtube ed.filename = "new_one")) ∧
    (¬(extra.length = 1 ∧ smart = true) →
      manager_init_update_action plugin_default extra smart =
        Except.ok plugin_default) := by
  constructor
  · intro ed hlen hsm hlook
    refine ⟨?_, ?_, ?_⟩
    · unfold manager_init_update_action
      rw [if_pos ⟨hlen, hsm⟩, hlook]
    · unfold try_smart_youtube
      cases hg : ytdl_search_group ed.filename with
      | none =>
          simp only [hg]
          constructor
          · intro h
            exact absurd h (by decide)
          · rintro ⟨g, hgg, _⟩
            cases hgg
      | some g =>
          simp only [hg]
          by_cases hone : g = "" ∨ g = "1"
          · rw [if_pos hone]
            simp only [true_iff]
            exact ⟨g, rfl, hone⟩
          · rw [if_neg hone]
            constructor
            · intro h
              exact absurd h (by decide)
            · rintro ⟨g', hgg, hone'⟩
              injection hgg with hgg
              subst hgg
              exact absurd hone' hone
    · unfold try_smart_youtube
      cases hg : ytdl_search_group ed.filename with
      | none =>
          simp [hg]
      | some g =>
          simp only [hg]
          by_cases hone : g = "" ∨ g = "1"
          · rw [if_pos hone]
            exact Or.inl rfl
          · rw [if_neg hone]
            exact Or.inr rfl
  · intro hneg
    unfold manager_init_update_action
    rw [if_neg hneg]

theorem c5_smart_singleton_inference_witness :
    manager_init_update_action "stay"
      [(1, { filename := "ytdl://ytsearch:cats",
             write_markdown := false, unmarkdown := false })] true =
      Except.ok "paste" ∧
    manager_init_update_action "stay"
      [(1, { filename := "a", write_markdown := false, unmarkdown := false }),
       (2, { filename := "b", write_markdown := false, unmarkdown := false })] true =
      Except.ok "stay" := by
  obtain ⟨h1, _, _⟩ := (c5_smart_singleton_inference "stay"
    [(1, { filename := "ytdl://ytsearch:cats",
           write_markdown := false, unmarkdown := false })] true).1
    { filename := "ytdl://ytsearch:cats", write_markdown := false, unmarkdown := false }
    rfl rfl rfl
  have h2 := (c5_smart_singleton_inference "stay"
    [(1, { filename := "a", write_markdown := false, unmarkdown := false }),
     (2, { filename := "b", write_markdown := false, unmarkdown := false })] true).2
    (by decide)
  exact ⟨h1, h2⟩

/-- C8: a `file-loaded` event whose player id resolves neither to a known
playlist item (extmark map) nor to a remap-table entry is handled without
raising: exactly one user-visible error is surfaced, display suppression is
lifted (`no_draw` becomes false), and the playlist mapping state is
returned unchanged. -/
theorem c8_unresolved_file_loaded (ps : PlaylistState) (no_draw : Bool)
    (last_playlist_entry_id : Int) (playlist_from_mpv : List PlItem)
    (hremap : alookup ps.playlist_id_remap last_playlist_entry_id = none)
    (hext : alookup ps.playlist_id_to_extmark_id last_playlist_entry_id = none) :
    preamble ps no_draw last_playlist_entry_id playlist_from_mpv =
      Except.ok (ps, false, [PEffect.showError "Playlist transition failed!"]) := by
  unfold preamble
  dsimp only
  rw [hremap, hext]

theorem c8_unresolved_file_loaded_witness :
    preamble
      { playlist_item_lines := [0]
        playlist_id_to_extra_data :=
          [(1, { filename := "u", write_markdown := false, unmarkdown := false })]
        playlist_id_to_extmark_id := [(1, 201)]
        playlist_id_remap := []
        updated_indices := [] }
      true 5 [] =
      Except.ok
        ({ playlist_item_lines := [0]
           playlist_id_to_extra_data :=
             [(1, { filename := "u", write_markdown := false, unmarkdown := false })]
           playlist_id_to_extmark_id := [(1, 201)]
           playlist_id_remap := []
           updated_indices := [] },
          false, [PEffect.showError "Playlist transition failed!"]) :=
  c8_unresolved_file_loaded _ true 5 [] (by decide) (by decide)
